import Mathlib

/-!
AquaNova telemetry node: sensors, payload encoder, radio link, duty cycle.

A shallow embedding of `sensors.c`, `lora.c` and `main.c`.

* C `float` values are IEEE 754 binary32 values, kept as sign, integer
  significand and binary exponent; a `float` expression is evaluated in
  binary32, each operation being the exact operation followed by
  round-to-nearest, ties-to-even, and a decimal constant is the nearest
  binary32 value.
* `sprintf` with `%.Nf` renders the exact value of its argument, correctly
  rounded (ties-to-even) to `N` decimals, and returns the number of characters
  written in front of the terminating null.
* Calls into the HAL and into the SX1276 driver are recorded, in order, in a
  trace, and every such call returns; the converter's raw codes are an input
  stream, one code per `HAL_ADC_GetValue`.
* `main` never returns; `main adc n` is where it stands after `n` passes
  through its loop.
-/

namespace AquaNova

/-! ## binary32 -/

/-- A value of the C type `float`: `(-1)^neg * mant * 2^exp`, an infinity or a NaN. -/
inductive Float32 where
  | finite (neg : Bool) (mant : Nat) (exp : Int)
  | inf (neg : Bool)
  | nan
  deriving DecidableEq

namespace Float32

/-- The rational number a finite value stands for (0 for infinities and NaN). -/
def toRat : Float32 → ℚ
  | finite neg m e => (if neg then -1 else 1) * (m : ℚ) * (2 : ℚ) ^ e
  | _ => 0

/-- Finite values. -/
def isFinite : Float32 → Bool
  | finite _ _ _ => true
  | _ => false

/-- Significand and exponent within the binary32 format: 24 bits of
significand, exponents from `-149` (subnormals) to `104`. -/
def Representable : Float32 → Prop
  | finite _ m e => m < 2 ^ 24 ∧ -149 ≤ e ∧ e ≤ 104
  | _ => True

/-- Numerator of `m * 2^e` as a fraction of naturals. -/
def fracNum (m : Nat) (e : Int) : Nat := m * 2 ^ e.toNat

/-- Denominator of `m * 2^e` as a fraction of naturals. -/
def fracDen (e : Int) : Nat := 2 ^ (-e).toNat

/-- The integer nearest to `num / den`, ties to the even one. -/
def roundHalfEven (num den : Nat) : Nat :=
  let q := num / den
  let r := num % den
  if 2 * r < den then q
  else if den < 2 * r then q + 1
  else if q % 2 = 0 then q else q + 1

/-- Number of binary digits of `n`, counted with at most `fuel` halvings. -/
def bitLenAux : Nat → Nat → Nat
  | 0, _ => 0
  | fuel + 1, n => if n = 0 then 0 else bitLenAux fuel (n / 2) + 1

/-- Number of binary digits of `n`. -/
def bitLen (n : Nat) : Nat := bitLenAux n n

/-- The integer `k` with `2^k ≤ num / den < 2^(k+1)`, for positive `num` and `den`. -/
def floorLog2 (num den : Nat) : Int :=
  let d : Int := (bitLen num : Int) - (bitLen den : Int)
  if den * 2 ^ d.toNat ≤ num * 2 ^ (-d).toNat then d else d - 1

/-- Round the magnitude `num / den` to binary32, to nearest, ties to even;
too large a magnitude gives an infinity. -/
def round (neg : Bool) (num den : Nat) : Float32 :=
  if num = 0 then finite neg 0 (-149)
  else
    let e : Int := max (floorLog2 num den - 23) (-149)
    let m := roundHalfEven (num * 2 ^ (-e).toNat) (den * 2 ^ e.toNat)
    let m1 := if m = 2 ^ 24 then 2 ^ 23 else m
    let e1 := if m = 2 ^ 24 then e + 1 else e
    if 104 < e1 then inf neg else finite neg m1 e1

/-- Conversion of a `uint32_t` to `float`. -/
def ofUInt32 (n : Nat) : Float32 := round false (n % 2 ^ 32) 1

/-- A decimal constant `num / den` of type `float`, such as `3.3f`. -/
def ofDecimal (num den : Nat) : Float32 := round false num den

/-- Product of two `float`s. -/
def mul : Float32 → Float32 → Float32
  | finite s m e, finite t n f =>
      round (xor s t) (fracNum m e * fracNum n f) (fracDen e * fracDen f)
  | finite s m _, inf t => if m = 0 then nan else inf (xor s t)
  | inf s, finite t n _ => if n = 0 then nan else inf (xor s t)
  | inf s, inf t => inf (xor s t)
  | _, _ => nan

/-- Quotient of two `float`s. -/
def div : Float32 → Float32 → Float32
  | finite s m e, finite t n f =>
      if n = 0 then (if m = 0 then nan else inf (xor s t))
      else round (xor s t) (fracNum m e * fracDen f) (fracDen e * fracNum n f)
  | finite s _ _, inf t => finite (xor s t) 0 (-149)
  | inf s, finite t _ _ => inf (xor s t)
  | _, _ => nan

end Float32

/-! ## `sprintf` conversions -/

/-- Decimal digits of `n`, zero-padded on the left to at least `width` characters. -/
def padDigits (width n : Nat) : List Char :=
  let ds := Nat.toDigits 10 n
  List.replicate (width - ds.length) '0' ++ ds

/-- The magnitude `m * 2^e` in units of `10^-prec`, rounded to the nearest
unit, ties to even. -/
def fixedUnits (prec m : Nat) (e : Int) : Nat :=
  Float32.roundHalfEven (Float32.fracNum m e * 10 ^ prec) (Float32.fracDen e)

/-- The text `sprintf` produces for the conversion `%.<prec>f`. -/
def fmtFixed (prec : Nat) : Float32 → List Char
  | .nan => "nan".toList
  | .inf neg => (if neg then ['-'] else []) ++ "inf".toList
  | .finite neg m e =>
      (if neg then ['-'] else []) ++ Nat.toDigits 10 (fixedUnits prec m e / 10 ^ prec) ++
        (if prec = 0 then [] else '.' :: padDigits prec (fixedUnits prec m e % 10 ^ prec))

/-! ## The board: HAL and SX1276 driver calls -/

/-- The converter channel constants `sensors.c` names. -/
inductive AdcChannel where
  | ADC_CHANNEL_1
  | ADC_CHANNEL_2
  | ADC_CHANNEL_3
  | ADC_CHANNEL_4
  deriving DecidableEq

/-- The other HAL constants the sources name. -/
inductive HalConst where
  | ADC_REGULAR_RANK_1
  | ADC_SAMPLETIME_71CYCLES_5
  | HAL_MAX_DELAY
  | PWR_LOWPOWERREGULATOR_ON
  | PWR_STOPENTRY_WFI
  deriving DecidableEq

/-- The fields of `ADC_ChannelConfTypeDef` that `read_adc` sets. -/
structure ADC_ChannelConfTypeDef where
  Channel : AdcChannel
  Rank : HalConst
  SamplingTime : HalConst
  deriving DecidableEq

/-- A call into the HAL, the generated board set-up or the SX1276 driver,
with its arguments (`HAL_ADC_GetValue` with the raw code it returned). -/
inductive HalCall where
  | HAL_Init
  | SystemClock_Config
  | MX_GPIO_Init
  | MX_SPI1_Init
  | MX_ADC1_Init
  | HAL_ADC_ConfigChannel (cfg : ADC_ChannelConfTypeDef)
  | HAL_ADC_Start
  | HAL_ADC_PollForConversion (timeout : HalConst)
  | HAL_ADC_GetValue (raw : Nat)
  | SX1276_Reset
  | SX1276_SetFrequency (hz : Nat)
  | SX1276_SetSpreadingFactor (sf : Nat)
  | SX1276_SetBandwidth (hz : Nat)
  | SX1276_SetTxPower (power : Nat)
  | SX1276_EnterTxMode
  | SX1276_WritePayload (data : List Char) (len : Nat)
  | SX1276_WaitForTxDone
  | HAL_PWR_EnterSTOPMode (regulator : HalConst) (stopEntry : HalConst)
  deriving DecidableEq

/-- The board as the program sees it: the calls issued so far, oldest first,
and how many raw codes have been read from the converter. -/
structure Board where
  trace : List HalCall
  conversions : Nat
  deriving DecidableEq

/-- Issue one call. -/
def Board.call (b : Board) (c : HalCall) : Board :=
  { b with trace := b.trace ++ [c] }

/-! ## sensors.h / sensors.c -/

/-- The struct `SensorData_t`. -/
structure SensorData_t where
  ph : Float32
  turbidity : Float32
  salinity : Float32
  ammonia : Float32
  temperature : Float32
  deriving DecidableEq

/-- All five fields hold finite values. -/
def SensorData_t.isFinite (d : SensorData_t) : Bool :=
  d.ph.isFinite && d.turbidity.isFinite && d.salinity.isFinite && d.ammonia.isFinite &&
    d.temperature.isFinite

/-- The expression `(raw * 3.3f) / 4096.0f` of `read_adc`. -/
def scaleRaw (raw : Nat) : Float32 :=
  Float32.div (Float32.mul (Float32.ofUInt32 raw) (Float32.ofDecimal 33 10))
    (Float32.ofDecimal 4096 1)

/-- The function `read_adc`; `adc k` is the raw code of the `k`-th conversion read. -/
def read_adc (adc : Nat → Nat) (channel : AdcChannel) (b : Board) : Float32 × Board :=
  let cfg : ADC_ChannelConfTypeDef :=
    { Channel := channel
      Rank := HalConst.ADC_REGULAR_RANK_1
      SamplingTime := HalConst.ADC_SAMPLETIME_71CYCLES_5 }
  let b := b.call (HalCall.HAL_ADC_ConfigChannel cfg)
  let b := b.call HalCall.HAL_ADC_Start
  let b := b.call (HalCall.HAL_ADC_PollForConversion HalConst.HAL_MAX_DELAY)
  let raw := adc b.conversions % 2 ^ 32
  let b := { b.call (HalCall.HAL_ADC_GetValue raw) with conversions := b.conversions + 1 }
  (scaleRaw raw, b)

/-- The function `Sensors_Init`. -/
def Sensors_Init (b : Board) : Board :=
  b.call HalCall.HAL_ADC_Start

/-- The function `Sensors_ReadAll`. -/
def Sensors_ReadAll (adc : Nat → Nat) (b : Board) : SensorData_t × Board :=
  let r1 := read_adc adc AdcChannel.ADC_CHANNEL_1 b
  let r2 := read_adc adc AdcChannel.ADC_CHANNEL_2 r1.2
  let r3 := read_adc adc AdcChannel.ADC_CHANNEL_3 r2.2
  let r4 := read_adc adc AdcChannel.ADC_CHANNEL_4 r3.2
  ({ ph := r1.1, turbidity := r2.1, salinity := r3.1, ammonia := r4.1,
     temperature := Float32.ofDecimal 25 1 }, r4.2)

/-- The characters `sprintf` produces for the format string of `Sensors_FormatPayload`. -/
def payloadText (d : SensorData_t) : List Char :=
  "PH=".toList ++ fmtFixed 2 d.ph ++ ",TUR=".toList ++ fmtFixed 2 d.turbidity ++
    ",SAL=".toList ++ fmtFixed 2 d.salinity ++ ",NH3=".toList ++ fmtFixed 2 d.ammonia ++
    ",T=".toList ++ fmtFixed 1 d.temperature

/-- The Reading of the wire-format example: 6.80, 12.34, 0.55, 0.02 and 25.0 as `float`s. -/
def scenarioReading : SensorData_t :=
  { ph := Float32.ofDecimal 680 100
    turbidity := Float32.ofDecimal 1234 100
    salinity := Float32.ofDecimal 55 100
    ammonia := Float32.ofDecimal 2 100
    temperature := Float32.ofDecimal 250 10 }

/-- The Reading whose five fields are `0.0f`. -/
def zeroReading : SensorData_t :=
  { ph := Float32.finite false 0 (-149)
    turbidity := Float32.finite false 0 (-149)
    salinity := Float32.finite false 0 (-149)
    ammonia := Float32.finite false 0 (-149)
    temperature := Float32.finite false 0 (-149) }

/-- The function `Sensors_FormatPayload`: what `sprintf` stores at `buf` (the
characters and the terminating null) and the `int` it returns. -/
def Sensors_FormatPayload (d : SensorData_t) : List Char × Int :=
  (payloadText d ++ [Char.ofNat 0], ((payloadText d).length : Int))

/-! ## lora.c -/

/-- The function `LORA_Init`. -/
def LORA_Init (b : Board) : Board :=
  let b := b.call HalCall.SX1276_Reset
  let b := b.call (HalCall.SX1276_SetFrequency 868000000)
  let b := b.call (HalCall.SX1276_SetSpreadingFactor 7)
  let b := b.call (HalCall.SX1276_SetBandwidth 125000)
  b.call (HalCall.SX1276_SetTxPower 14)

/-- The function `LORA_Send`; `len` is the `uint8_t` argument. -/
def LORA_Send (data : List Char) (len : Nat) (b : Board) : Board :=
  let b := b.call HalCall.SX1276_EnterTxMode
  let b := b.call (HalCall.SX1276_WritePayload data len)
  b.call HalCall.SX1276_WaitForTxDone

/-! ## main.c -/

/-- A statement of `main`: the function called, with the data passed and returned. -/
inductive MainEvent where
  | HAL_Init
  | SystemClock_Config
  | MX_GPIO_Init
  | MX_SPI1_Init
  | MX_ADC1_Init
  | LORA_Init
  | Sensors_Init
  | Sensors_ReadAll (ret : SensorData_t)
  | Sensors_FormatPayload (data : SensorData_t) (buf : List Char) (ret : Int)
  | LORA_Send (data : List Char) (len : Nat)
  | HAL_PWR_EnterSTOPMode (regulator : HalConst) (stopEntry : HalConst)
  deriving DecidableEq

/-- Where `main` stands: the board and the statements executed so far, oldest first. -/
structure MainState where
  board : Board
  events : List MainEvent
  deriving DecidableEq

/-- Conversion of an `int` to `uint8_t`. -/
def toUInt8 (n : Int) : Nat := (n % 256).toNat

/-- Lines 11 to 19 of `main`: everything before the loop, from power-up. -/
def mainInit : MainState :=
  let b : Board := { trace := [], conversions := 0 }
  let b := b.call HalCall.HAL_Init
  let b := b.call HalCall.SystemClock_Config
  let b := b.call HalCall.MX_GPIO_Init
  let b := b.call HalCall.MX_SPI1_Init
  let b := b.call HalCall.MX_ADC1_Init
  let b := LORA_Init b
  let b := Sensors_Init b
  { board := b
    events := [MainEvent.HAL_Init, MainEvent.SystemClock_Config, MainEvent.MX_GPIO_Init,
      MainEvent.MX_SPI1_Init, MainEvent.MX_ADC1_Init, MainEvent.LORA_Init,
      MainEvent.Sensors_Init] }

/-- Lines 23 to 33 of `main`: one pass through the body of `while (1)`. -/
def mainCycle (adc : Nat → Nat) (s : MainState) : MainState :=
  let r := Sensors_ReadAll adc s.board
  let data := r.1
  let f := Sensors_FormatPayload data
  let payload := f.1
  let len := f.2
  let b := LORA_Send payload (toUInt8 len) r.2
  let b := b.call
    (HalCall.HAL_PWR_EnterSTOPMode HalConst.PWR_LOWPOWERREGULATOR_ON HalConst.PWR_STOPENTRY_WFI)
  { board := b
    events := s.events ++ [MainEvent.Sensors_ReadAll data,
      MainEvent.Sensors_FormatPayload data payload len,
      MainEvent.LORA_Send payload (toUInt8 len),
      MainEvent.HAL_PWR_EnterSTOPMode HalConst.PWR_LOWPOWERREGULATOR_ON
        HalConst.PWR_STOPENTRY_WFI] }

/-- The function `main` after `n` passes through its loop. -/
def main (adc : Nat → Nat) : Nat → MainState
  | 0 => mainInit
  | n + 1 => mainCycle adc (main adc n)

/-! ## The transceiver and the receiver, as the specification describes them -/

/-- Modelled from the spec: the RadioConfiguration held by the transceiver (the
SX1276 driver is not part of the sources); a parameter is `none` until it is set. -/
structure RadioConfiguration where
  frequency : Option Nat
  spreadingFactor : Option Nat
  bandwidth : Option Nat
  txPower : Option Nat
  deriving DecidableEq

/-- Modelled from the spec: the transceiver, its configuration and its outgoing buffer. -/
structure Radio where
  config : RadioConfiguration
  txBuffer : List Char
  deriving DecidableEq

/-- Modelled from the spec: the effect of one driver call on the transceiver.
Reset returns it to the unconfigured state, each setter writes its parameter,
write-payload stores `len` bytes starting at `data` in the outgoing buffer,
and no other call touches it. -/
def Radio.step (r : Radio) : HalCall → Radio
  | HalCall.SX1276_Reset =>
      { config := { frequency := none, spreadingFactor := none, bandwidth := none,
                    txPower := none }
        txBuffer := [] }
  | HalCall.SX1276_SetFrequency hz => { r with config := { r.config with frequency := some hz } }
  | HalCall.SX1276_SetSpreadingFactor sf =>
      { r with config := { r.config with spreadingFactor := some sf } }
  | HalCall.SX1276_SetBandwidth hz => { r with config := { r.config with bandwidth := some hz } }
  | HalCall.SX1276_SetTxPower p => { r with config := { r.config with txPower := some p } }
  | HalCall.SX1276_WritePayload data len => { r with txBuffer := data.take len }
  | _ => r

/-- Modelled from the spec: the transceiver after a sequence of calls. -/
def Radio.run (r : Radio) (calls : List HalCall) : Radio :=
  calls.foldl Radio.step r

/-- The calls that reset or configure the transceiver. -/
def isConfigCall : HalCall → Bool
  | HalCall.SX1276_Reset => true
  | HalCall.SX1276_SetFrequency _ => true
  | HalCall.SX1276_SetSpreadingFactor _ => true
  | HalCall.SX1276_SetBandwidth _ => true
  | HalCall.SX1276_SetTxPower _ => true
  | _ => false

/-- Value of a string of decimal digits. -/
def digitsValue (s : List Char) : Nat :=
  s.foldl (fun acc c => acc * 10 + (c.toNat - 48)) 0

/-- Modelled from the spec: the inverse of one `<Ndp>` field of the wire format,
an optional minus sign, at least one digit, a point and exactly `prec` digits. -/
def parseFixed (prec : Nat) (s : List Char) : Option ℚ :=
  let neg := s.head? = some '-'
  let body := if neg then s.drop 1 else s
  let int := body.takeWhile Char.isDigit
  match body.dropWhile Char.isDigit with
  | '.' :: frac =>
      if int ≠ [] ∧ frac.length = prec ∧ frac.all Char.isDigit = true then
        some ((if neg then -1 else 1) *
          ((digitsValue int : ℚ) + (digitsValue frac : ℚ) / (10 : ℚ) ^ prec))
      else none
  | _ => none

/-- Modelled from the spec: read `KEY=` and the text up to the next comma. -/
def takeField (key : List Char) (s : List Char) : Option (List Char × List Char) :=
  if key.isPrefixOf s then
    let r := s.drop key.length
    some (r.takeWhile (fun c => c != ','), r.dropWhile (fun c => c != ','))
  else none

/-- Modelled from the spec: the inverse of the wire format
`PH=<2dp>,TUR=<2dp>,SAL=<2dp>,NH3=<2dp>,T=<1dp>`. -/
def parsePayload (s : List Char) : Option (ℚ × ℚ × ℚ × ℚ × ℚ) := do
  let (f1, r1) ← takeField "PH=".toList s
  let (f2, r2) ← takeField ",TUR=".toList r1
  let (f3, r3) ← takeField ",SAL=".toList r2
  let (f4, r4) ← takeField ",NH3=".toList r3
  let (f5, r5) ← takeField ",T=".toList r4
  if r5 ≠ [] then none
  else do
    let ph ← parseFixed 2 f1
    let tur ← parseFixed 2 f2
    let sal ← parseFixed 2 f3
    let nh3 ← parseFixed 2 f4
    let t ← parseFixed 1 f5
    pure (ph, tur, sal, nh3, t)

/-- A decimal numeral with exactly `prec` digits after the point. -/
def IsFixedDecimal (prec : Nat) (s : List Char) : Prop :=
  ∃ sign int frac : List Char, s = sign ++ int ++ '.' :: frac ∧
    (sign = [] ∨ sign = ['-']) ∧ int ≠ [] ∧ (∀ c ∈ int, c.isDigit = true) ∧
    frac.length = prec ∧ ∀ c ∈ frac, c.isDigit = true

/-- The text `s` is a decimal numeral with `prec` decimals that reads back as a
number within half a unit of the last decimal of the value of `x`. -/
def RendersAs (prec : Nat) (x : Float32) (s : List Char) : Prop :=
  IsFixedDecimal prec s ∧
    ∃ v : ℚ, parseFixed prec s = some v ∧ |v - x.toRat| ≤ 1 / (2 * (10 : ℚ) ^ prec)

/-! ## Traces of the radio link -/

theorem LORA_Send_trace_eq (data : List Char) (len : Nat) (b : Board) :
    (LORA_Send data len b).trace =
      b.trace ++ [HalCall.SX1276_EnterTxMode, HalCall.SX1276_WritePayload data len,
        HalCall.SX1276_WaitForTxDone] := by
  simp [LORA_Send, Board.call]

theorem LORA_Init_trace_eq (b : Board) :
    (LORA_Init b).trace =
      b.trace ++ [HalCall.SX1276_Reset, HalCall.SX1276_SetFrequency 868000000,
        HalCall.SX1276_SetSpreadingFactor 7, HalCall.SX1276_SetBandwidth 125000,
        HalCall.SX1276_SetTxPower 14] := by
  simp [LORA_Init, Board.call]

theorem Radio.run_append (r : Radio) (xs ys : List HalCall) :
    r.run (xs ++ ys) = (r.run xs).run ys := by
  simp [Radio.run, List.foldl_append]

/-- The board after a sequence of sends. -/
theorem sends_trace (sends : List (List Char × Nat)) (b : Board) :
    ∃ ext : List HalCall,
      (sends.foldl (fun acc p => LORA_Send p.1 p.2 acc) b).trace = b.trace ++ ext ∧
      (∀ c ∈ ext, isConfigCall c = false) ∧
      ∀ r : Radio, (r.run ext).config = r.config := by
  induction sends generalizing b with
  | nil => exact ⟨[], by simp, by simp, fun r => rfl⟩
  | cons p ps ih =>
    obtain ⟨ext, h1, h2, h3⟩ := ih (LORA_Send p.1 p.2 b)
    refine ⟨[HalCall.SX1276_EnterTxMode, HalCall.SX1276_WritePayload p.1 p.2,
      HalCall.SX1276_WaitForTxDone] ++ ext, ?_, ?_, ?_⟩
    · rw [List.foldl_cons, h1, LORA_Send_trace_eq, List.append_assoc]
    · intro c hc
      rcases List.mem_append.mp hc with hc | hc
      · simp only [List.mem_cons, List.mem_singleton, List.not_mem_nil, or_false] at hc
        rcases hc with rfl | rfl | rfl <;> rfl
      · exact h2 c hc
    · intro r
      rw [Radio.run_append, h3]
      rfl

/-! ## Decimal digits -/

theorem digitChar_isDigit (d : Nat) (h : d < 10) : (Nat.digitChar d).isDigit = true := by
  interval_cases d <;> rfl

theorem digitChar_value (d : Nat) (h : d < 10) : (Nat.digitChar d).toNat - 48 = d := by
  interval_cases d <;> rfl

theorem toDigitsCore_acc (f n : Nat) (acc : List Char) :
    Nat.toDigitsCore 10 f n acc = Nat.toDigitsCore 10 f n [] ++ acc := by
  induction f generalizing n acc with
  | zero => simp [Nat.toDigitsCore]
  | succ f ih =>
    simp only [Nat.toDigitsCore]
    by_cases h : n / 10 = 0
    · simp [h]
    · simp only [h, if_false]
      rw [ih (n / 10) (Nat.digitChar (n % 10) :: acc), ih (n / 10) [Nat.digitChar (n % 10)]]
      simp

theorem toDigitsCore_fuel (f g n : Nat) (hf : n < f) (hg : n < g) :
    Nat.toDigitsCore 10 f n [] = Nat.toDigitsCore 10 g n [] := by
  induction f generalizing g n with
  | zero => omega
  | succ f ih =>
    cases g with
    | zero => omega
    | succ g =>
      simp only [Nat.toDigitsCore]
      by_cases h : n / 10 = 0
      · simp [h]
      · simp only [h, if_false]
        rw [toDigitsCore_acc f, toDigitsCore_acc g, ih g (n / 10) (by omega) (by omega)]

/-- The recursion `Nat.toDigits` follows in base ten. -/
theorem toDigits_rec (n : Nat) :
    Nat.toDigits 10 n =
      if n < 10 then [Nat.digitChar n]
      else Nat.toDigits 10 (n / 10) ++ [Nat.digitChar (n % 10)] := by
  by_cases h : n < 10
  · have h0 : n / 10 = 0 := by omega
    rw [if_pos h]
    simp [Nat.toDigits, Nat.toDigitsCore, h0, Nat.mod_eq_of_lt h]
  · have h0 : ¬ n / 10 = 0 := by omega
    have hl : Nat.toDigits 10 n =
        Nat.toDigitsCore 10 n (n / 10) [Nat.digitChar (n % 10)] := by
      simp [Nat.toDigits, Nat.toDigitsCore, h0]
    rw [if_neg h, hl, toDigitsCore_acc,
      toDigitsCore_fuel n (n / 10 + 1) (n / 10) (by omega) (by omega)]
    rfl

theorem toDigits_isDigit (n : Nat) : ∀ c ∈ Nat.toDigits 10 n, c.isDigit = true := by
  induction n using Nat.strong_induction_on with
  | _ n ih =>
    rw [toDigits_rec]
    by_cases h : n < 10
    · simp only [h, if_true, List.mem_singleton]
      rintro c rfl
      exact digitChar_isDigit n h
    · simp only [h, if_false, List.mem_append, List.mem_singleton]
      rintro c (hc | rfl)
      · exact ih (n / 10) (by omega) c hc
      · exact digitChar_isDigit _ (Nat.mod_lt _ (by decide))

theorem toDigits_ne_nil (n : Nat) : Nat.toDigits 10 n ≠ [] := by
  rw [toDigits_rec]
  by_cases h : n < 10 <;> simp [h]

theorem digitsValue_append (s : List Char) (c : Char) :
    digitsValue (s ++ [c]) = digitsValue s * 10 + (c.toNat - 48) := by
  simp [digitsValue, List.foldl_append]

theorem digitsValue_toDigits (n : Nat) : digitsValue (Nat.toDigits 10 n) = n := by
  induction n using Nat.strong_induction_on with
  | _ n ih =>
    rw [toDigits_rec]
    by_cases h : n < 10
    · simp only [h, if_true]
      have := digitChar_value n h
      simpa [digitsValue] using this
    · simp only [h, if_false]
      rw [digitsValue_append, ih (n / 10) (by omega),
        digitChar_value _ (Nat.mod_lt _ (by decide))]
      omega

theorem toDigits_length_le (n e : Nat) (he : 0 < e) (h : n < 10 ^ e) :
    (Nat.toDigits 10 n).length ≤ e :=
  Nat.toDigitsCore_length 10 (by decide) (n + 1) n e h he

theorem digitsValue_zeros (k : Nat) (s : List Char) :
    digitsValue (List.replicate k '0' ++ s) = digitsValue s := by
  induction k with
  | zero => simp
  | succ k ih =>
    have h : digitsValue (List.replicate k '0' ++ s) = digitsValue s := ih
    simp only [digitsValue] at h ⊢
    simp only [List.replicate_succ, List.cons_append, List.foldl_cons]
    exact h

theorem padDigits_length (w n : Nat) (hw : 0 < w) (h : n < 10 ^ w) :
    (padDigits w n).length = w := by
  have := toDigits_length_le n w hw h
  simp only [padDigits, List.length_append, List.length_replicate]
  omega

theorem padDigits_isDigit (w n : Nat) : ∀ c ∈ padDigits w n, c.isDigit = true := by
  intro c hc
  simp only [padDigits, List.mem_append, List.mem_replicate] at hc
  rcases hc with ⟨_, rfl⟩ | hc
  · rfl
  · exact toDigits_isDigit n c hc

theorem digitsValue_padDigits (w n : Nat) : digitsValue (padDigits w n) = n := by
  simp only [padDigits]
  rw [digitsValue_zeros, digitsValue_toDigits]

/-! ## `%.Nf` texts and their inverse -/

theorem isDigit_ne_comma (c : Char) (h : c.isDigit = true) : c ≠ ',' := by
  rintro rfl
  revert h
  decide

theorem isDigit_ne_minus (c : Char) (h : c.isDigit = true) : c ≠ '-' := by
  rintro rfl
  revert h
  decide

theorem takeWhile_append_stop (p : Char → Bool) (l r : List Char) (x : Char)
    (hl : ∀ c ∈ l, p c = true) (hx : p x = false) :
    (l ++ x :: r).takeWhile p = l ∧ (l ++ x :: r).dropWhile p = x :: r := by
  induction l with
  | nil => simp [List.takeWhile, List.dropWhile, hx]
  | cons a l ih =>
    have ha : p a = true := hl a (List.mem_cons_self a l)
    obtain ⟨h1, h2⟩ := ih (fun c hc => hl c (List.mem_cons_of_mem a hc))
    simp [List.takeWhile, List.dropWhile, ha, h1, h2]

theorem takeWhile_all (p : Char → Bool) (l : List Char) (hl : ∀ c ∈ l, p c = true) :
    l.takeWhile p = l ∧ l.dropWhile p = [] := by
  induction l with
  | nil => simp
  | cons a l ih =>
    have ha : p a = true := hl a (List.mem_cons_self a l)
    obtain ⟨h1, h2⟩ := ih (fun c hc => hl c (List.mem_cons_of_mem a hc))
    simp [List.takeWhile, List.dropWhile, ha, h1, h2]

theorem fixedUnits_mod_lt (p m : Nat) (e : Int) : fixedUnits p m e % 10 ^ p < 10 ^ p :=
  Nat.mod_lt _ (Nat.pos_pow_of_pos p (by decide))

theorem fmtFixed_finite (p : Nat) (hp : 0 < p) (neg : Bool) (m : Nat) (e : Int) :
    fmtFixed p (Float32.finite neg m e) =
      (if neg then ['-'] else []) ++ (Nat.toDigits 10 (fixedUnits p m e / 10 ^ p) ++
        '.' :: padDigits p (fixedUnits p m e % 10 ^ p)) := by
  have h0 : ¬ p = 0 := by omega
  simp [fmtFixed, h0]

theorem fmtFixed_isFixedDecimal (p : Nat) (hp : 0 < p) (neg : Bool) (m : Nat) (e : Int) :
    IsFixedDecimal p (fmtFixed p (Float32.finite neg m e)) := by
  refine ⟨if neg then ['-'] else [], Nat.toDigits 10 (fixedUnits p m e / 10 ^ p),
    padDigits p (fixedUnits p m e % 10 ^ p), ?_, ?_, toDigits_ne_nil _, toDigits_isDigit _,
    padDigits_length p _ hp (fixedUnits_mod_lt p m e), padDigits_isDigit p _⟩
  · rw [fmtFixed_finite p hp, List.append_assoc]
  · cases neg <;> simp

theorem fmtFixed_chars (p : Nat) (hp : 0 < p) (neg : Bool) (m : Nat) (e : Int) :
    ∀ c ∈ fmtFixed p (Float32.finite neg m e), c = '-' ∨ c.isDigit = true ∨ c = '.' := by
  intro c hc
  rw [fmtFixed_finite p hp] at hc
  rcases List.mem_append.mp hc with h | h
  · cases neg
    · simp at h
    · left; simpa using h
  · rcases List.mem_append.mp h with h | h
    · exact Or.inr (Or.inl (toDigits_isDigit _ c h))
    · rcases List.mem_cons.mp h with h | h
      · exact Or.inr (Or.inr h)
      · exact Or.inr (Or.inl (padDigits_isDigit p _ c h))

theorem fmtFixed_no_comma (p : Nat) (hp : 0 < p) (neg : Bool) (m : Nat) (e : Int) :
    ∀ c ∈ fmtFixed p (Float32.finite neg m e), (c != ',') = true := by
  intro c hc
  rcases fmtFixed_chars p hp neg m e c hc with rfl | h | rfl
  · decide
  · simpa using isDigit_ne_comma c h
  · decide

theorem fmtFixed_no_nul (p : Nat) (hp : 0 < p) (x : Float32) :
    ∀ c ∈ fmtFixed p x, c ≠ Char.ofNat 0 := by
  intro c hc
  cases x with
  | nan =>
    have h : ∀ c ∈ fmtFixed p Float32.nan, c ≠ Char.ofNat 0 := by
      simp only [fmtFixed]; decide
    exact h c hc
  | inf s =>
    have h : ∀ c ∈ fmtFixed p (Float32.inf s), c ≠ Char.ofNat 0 := by
      simp only [fmtFixed]; cases s <;> decide
    exact h c hc
  | finite neg m e =>
    rcases fmtFixed_chars p hp neg m e c hc with rfl | h | rfl
    · decide
    · rintro rfl
      revert h
      decide
    · decide

theorem units_split (n p : Nat) :
    ((n / 10 ^ p : Nat) : ℚ) + ((n % 10 ^ p : Nat) : ℚ) / (10 : ℚ) ^ p = (n : ℚ) / (10 : ℚ) ^ p := by
  have h10 : ((10 : ℚ) ^ p) ≠ 0 := pow_ne_zero p (by norm_num)
  have h := Nat.div_add_mod n (10 ^ p)
  have hq : ((10 ^ p * (n / 10 ^ p) + n % 10 ^ p : Nat) : ℚ) = (n : ℚ) := by rw [h]
  push_cast at hq
  field_simp
  linarith

/-- Parsing the text of `%.<p>f` gives the rounded number of units over `10^p`, signed. -/
theorem parseFixed_fmtFixed (p : Nat) (hp : 0 < p) (neg : Bool) (m : Nat) (e : Int) :
    parseFixed p (fmtFixed p (Float32.finite neg m e)) =
      some ((if neg then -1 else 1) * ((fixedUnits p m e : ℚ) / (10 : ℚ) ^ p)) := by
  rw [fmtFixed_finite p hp]
  have hdot : Char.isDigit '.' = false := by decide
  obtain ⟨ht, hd⟩ := takeWhile_append_stop Char.isDigit
    (Nat.toDigits 10 (fixedUnits p m e / 10 ^ p))
    (padDigits p (fixedUnits p m e % 10 ^ p)) '.' (toDigits_isDigit _) hdot
  have hlen := padDigits_length p _ hp (fixedUnits_mod_lt p m e)
  have hall : (padDigits p (fixedUnits p m e % 10 ^ p)).all Char.isDigit = true :=
    List.all_eq_true.mpr (padDigits_isDigit p _)
  have hne := toDigits_ne_nil (fixedUnits p m e / 10 ^ p)
  cases neg with
  | true =>
    simp only [parseFixed, if_true, List.cons_append, List.nil_append, List.head?_cons,
      List.drop_succ_cons, List.drop_zero, ht, hd, hlen, hall, hne, ne_eq, not_false_eq_true,
      and_self, digitsValue_toDigits, digitsValue_padDigits, units_split]
  | false =>
    have hhead : ¬ (Nat.toDigits 10 (fixedUnits p m e / 10 ^ p) ++
        '.' :: padDigits p (fixedUnits p m e % 10 ^ p)).head? = some '-' := by
      cases hds : Nat.toDigits 10 (fixedUnits p m e / 10 ^ p) with
      | nil => exact absurd hds hne
      | cons c cs =>
        have hc : c.isDigit = true := toDigits_isDigit _ c (by rw [hds]; exact List.mem_cons_self c cs)
        simp only [List.cons_append, List.head?_cons, Option.some.injEq]
        exact isDigit_ne_minus c hc
    simp only [parseFixed, Bool.false_eq_true, if_false, List.nil_append, hhead, ht, hd, hlen,
      hall, hne, ne_eq, not_false_eq_true, and_self, if_true, digitsValue_toDigits,
      digitsValue_padDigits, units_split]

/-! ## Rounding to the nearest integer -/

theorem roundHalfEven_cases (N D : Nat) :
    (Float32.roundHalfEven N D = N / D ∧ 2 * (N % D) ≤ D) ∨
    (Float32.roundHalfEven N D = N / D + 1 ∧ D ≤ 2 * (N % D)) := by
  unfold Float32.roundHalfEven
  simp only
  split_ifs with h1 h2 h3
  · left; exact ⟨rfl, by omega⟩
  · right; exact ⟨rfl, by omega⟩
  · left; exact ⟨rfl, by omega⟩
  · right; exact ⟨rfl, by omega⟩

theorem div_mod_rat (N D : Nat) (hD : 0 < D) :
    (N : ℚ) / D = ((N / D : Nat) : ℚ) + ((N % D : Nat) : ℚ) / D := by
  have hD' : (D : ℚ) ≠ 0 := by exact_mod_cast hD.ne'
  have h := Nat.div_add_mod N D
  have hq : ((D * (N / D) + N % D : Nat) : ℚ) = (N : ℚ) := by rw [h]
  push_cast at hq
  field_simp
  linarith

/-- The rounded quotient is within one half of the quotient. -/
theorem roundHalfEven_error (N D : Nat) (hD : 0 < D) :
    |(Float32.roundHalfEven N D : ℚ) - (N : ℚ) / D| ≤ 1 / 2 := by
  have hD' : (0 : ℚ) < D := by exact_mod_cast hD
  have hr : N % D < D := Nat.mod_lt N hD
  have hr' : ((N % D : Nat) : ℚ) < D := by exact_mod_cast hr
  have hr0 : (0 : ℚ) ≤ ((N % D : Nat) : ℚ) := by positivity
  rw [div_mod_rat N D hD, abs_le]
  rcases roundHalfEven_cases N D with ⟨h, hle⟩ | ⟨h, hle⟩
  · have hle' : (2 : ℚ) * ((N % D : Nat) : ℚ) ≤ D := by exact_mod_cast hle
    have h2 : ((N % D : Nat) : ℚ) / D ≤ 1 / 2 := by
      rw [div_le_iff₀ hD']; linarith
    have h3 : 0 ≤ ((N % D : Nat) : ℚ) / D := by positivity
    rw [h]
    constructor <;> linarith
  · have hle' : (D : ℚ) ≤ 2 * ((N % D : Nat) : ℚ) := by exact_mod_cast hle
    have h2 : 1 / 2 ≤ ((N % D : Nat) : ℚ) / D := by
      rw [le_div_iff₀ hD']; linarith
    have h3 : ((N % D : Nat) : ℚ) / D < 1 := by
      rw [div_lt_iff₀ hD']; linarith
    rw [h]
    push_cast
    constructor <;> linarith

/-- A quotient that is an integer is its own rounding. -/
theorem roundHalfEven_exact (N D K : Nat) (hD : 0 < D) (h : (N : ℚ) / D = K) :
    Float32.roundHalfEven N D = K := by
  have herr := roundHalfEven_error N D hD
  rw [h, abs_le] at herr
  have h1 : ((K : ℤ) : ℚ) - 1 < ((Float32.roundHalfEven N D : ℤ) : ℚ) := by
    push_cast; linarith [herr.1]
  have h2 : ((Float32.roundHalfEven N D : ℤ) : ℚ) < ((K : ℤ) : ℚ) + 1 := by
    push_cast; linarith [herr.2]
  have h1' : (K : ℤ) - 1 < (Float32.roundHalfEven N D : ℤ) := by exact_mod_cast h1
  have h2' : (Float32.roundHalfEven N D : ℤ) < (K : ℤ) + 1 := by exact_mod_cast h2
  omega

/-! ## Values of `float`s as fractions -/

theorem fracDen_pos (e : Int) : 0 < Float32.fracDen e :=
  Nat.pos_pow_of_pos _ (by decide)

theorem frac_eq (m : Nat) (e : Int) :
    (Float32.fracNum m e : ℚ) / (Float32.fracDen e : ℚ) = (m : ℚ) * (2 : ℚ) ^ e := by
  unfold Float32.fracNum Float32.fracDen
  rcases Int.le_total 0 e with h | h
  · obtain ⟨k, rfl⟩ := Int.eq_ofNat_of_zero_le h
    have h1 : (-(k : Int)).toNat = 0 := by omega
    simp [h1]
  · obtain ⟨k, hk⟩ := Int.eq_ofNat_of_zero_le (show 0 ≤ -e by omega)
    have he : e = -(k : Int) := by omega
    subst he
    have h1 : (-(k : Int)).toNat = 0 := by omega
    simp only [h1, neg_neg, Int.toNat_ofNat, pow_zero, mul_one, Nat.cast_pow, Nat.cast_ofNat,
      zpow_neg, zpow_natCast]
    rw [div_eq_mul_inv]

/-- The magnitude of a finite `float`. -/
theorem abs_toRat (neg : Bool) (m : Nat) (e : Int) :
    |(Float32.finite neg m e).toRat| = (m : ℚ) * (2 : ℚ) ^ e := by
  have h2 : (0 : ℚ) ≤ (m : ℚ) * (2 : ℚ) ^ e := by positivity
  cases neg
  · simp only [Float32.toRat, Bool.false_eq_true, if_false, one_mul]
    exact abs_of_nonneg h2
  · simp only [Float32.toRat, if_true, neg_mul, one_mul, abs_neg]
    exact abs_of_nonneg h2

theorem toRat_sign (neg : Bool) (m : Nat) (e : Int) :
    (Float32.finite neg m e).toRat = (if neg then -1 else 1) * ((m : ℚ) * (2 : ℚ) ^ e) := by
  simp [Float32.toRat, mul_assoc]

/-- The rounded number of units of a `%.<p>f` conversion is within half a unit of the magnitude. -/
theorem fixedUnits_error (p m : Nat) (e : Int) :
    |(fixedUnits p m e : ℚ) / (10 : ℚ) ^ p - (m : ℚ) * (2 : ℚ) ^ e| ≤ 1 / (2 * (10 : ℚ) ^ p) := by
  have h10 : (0 : ℚ) < (10 : ℚ) ^ p := by positivity
  have hD := fracDen_pos e
  have herr := roundHalfEven_error (Float32.fracNum m e * 10 ^ p) (Float32.fracDen e) hD
  have hval : ((Float32.fracNum m e * 10 ^ p : Nat) : ℚ) / (Float32.fracDen e : ℚ) =
      (m : ℚ) * (2 : ℚ) ^ e * (10 : ℚ) ^ p := by
    rw [← frac_eq]
    push_cast
    ring
  rw [hval] at herr
  have hu : (fixedUnits p m e : ℚ) / (10 : ℚ) ^ p - (m : ℚ) * (2 : ℚ) ^ e =
      ((fixedUnits p m e : ℚ) - (m : ℚ) * (2 : ℚ) ^ e * (10 : ℚ) ^ p) / (10 : ℚ) ^ p := by
    field_simp
    ring
  have hhalf : 1 / (2 * (10 : ℚ) ^ p) = 1 / 2 / (10 : ℚ) ^ p := by
    field_simp
  rw [hu, abs_div, abs_of_pos h10, hhalf]
  exact (div_le_div_iff_of_pos_right h10).mpr herr

/-- A magnitude that is a whole number of units is rendered without loss. -/
theorem fixedUnits_exact (p m : Nat) (e : Int) (K : Nat)
    (h : (m : ℚ) * (2 : ℚ) ^ e * (10 : ℚ) ^ p = K) :
    (fixedUnits p m e : ℚ) / (10 : ℚ) ^ p = (m : ℚ) * (2 : ℚ) ^ e := by
  have h10 : (10 : ℚ) ^ p ≠ 0 := by positivity
  have hval : ((Float32.fracNum m e * 10 ^ p : Nat) : ℚ) / (Float32.fracDen e : ℚ) = K := by
    rw [← h, ← frac_eq]
    push_cast
    ring
  have := roundHalfEven_exact _ _ K (fracDen_pos e) hval
  unfold fixedUnits
  rw [this, ← h]
  field_simp

/-! ## The wire format and its inverse -/

theorem takeField_append (key f rest : List Char) (hf : ∀ c ∈ f, (c != ',') = true)
    (hrest : rest = [] ∨ ∃ r, rest = ',' :: r) :
    takeField key (key ++ (f ++ rest)) = some (f, rest) := by
  have hpre : key.isPrefixOf (key ++ (f ++ rest)) = true := by
    induction key with
    | nil => simp [List.isPrefixOf]
    | cons k ks ih => simp [List.isPrefixOf, ih]
  have hcomma : ((',' : Char) != ',') = false := by decide
  simp only [takeField, hpre, if_true, List.drop_left]
  rcases hrest with rfl | ⟨r, rfl⟩
  · obtain ⟨h1, h2⟩ := takeWhile_all (fun c => c != ',') f hf
    simp [h1, h2]
  · obtain ⟨h1, h2⟩ := takeWhile_append_stop (fun c => c != ',') f r ',' hf hcomma
    simp [h1, h2]

/-- The inverse of the wire format, applied to five fields laid out in that format. -/
theorem parsePayload_fields (a b c e t : List Char) (v1 v2 v3 v4 v5 : ℚ)
    (ha : ∀ x ∈ a, (x != ',') = true) (hb : ∀ x ∈ b, (x != ',') = true)
    (hc : ∀ x ∈ c, (x != ',') = true) (he : ∀ x ∈ e, (x != ',') = true)
    (ht : ∀ x ∈ t, (x != ',') = true)
    (h1 : parseFixed 2 a = some v1) (h2 : parseFixed 2 b = some v2)
    (h3 : parseFixed 2 c = some v3) (h4 : parseFixed 2 e = some v4)
    (h5 : parseFixed 1 t = some v5) :
    parsePayload ("PH=".toList ++ a ++ ",TUR=".toList ++ b ++ ",SAL=".toList ++ c ++
      ",NH3=".toList ++ e ++ ",T=".toList ++ t) = some (v1, v2, v3, v4, v5) := by
  have e1 := takeField_append "PH=".toList a
    (",TUR=".toList ++ (b ++ (",SAL=".toList ++ (c ++ (",NH3=".toList ++ (e ++
      (",T=".toList ++ (t ++ []))))))))
    ha (Or.inr ⟨_, rfl⟩)
  have e2 := takeField_append ",TUR=".toList b
    (",SAL=".toList ++ (c ++ (",NH3=".toList ++ (e ++ (",T=".toList ++ (t ++ []))))))
    hb (Or.inr ⟨_, rfl⟩)
  have e3 := takeField_append ",SAL=".toList c
    (",NH3=".toList ++ (e ++ (",T=".toList ++ (t ++ [])))) hc (Or.inr ⟨_, rfl⟩)
  have e4 := takeField_append ",NH3=".toList e (",T=".toList ++ (t ++ [])) he
    (Or.inr ⟨_, rfl⟩)
  have e5 := takeField_append ",T=".toList t [] ht (Or.inl rfl)
  have hs : "PH=".toList ++ a ++ ",TUR=".toList ++ b ++ ",SAL=".toList ++ c ++
      ",NH3=".toList ++ e ++ ",T=".toList ++ t =
      "PH=".toList ++ (a ++ (",TUR=".toList ++ (b ++ (",SAL=".toList ++ (c ++
        (",NH3=".toList ++ (e ++ (",T=".toList ++ (t ++ []))))))))) := by
    simp only [List.append_assoc, List.append_nil]
  rw [hs]
  unfold parsePayload
  simp only [e1, e2, e3, e4, e5, h1, h2, h3, h4, h5, Option.bind_eq_bind, Option.some_bind,
    ne_eq, not_true_eq_false, if_false, Option.pure_def]

theorem payload_text_of_buffer (d : SensorData_t) :
    (Sensors_FormatPayload d).1.take (Sensors_FormatPayload d).2.toNat = payloadText d := by
  simp [Sensors_FormatPayload]

/-- What one `%.<p>f` field of a finite `float` looks like and what it reads back as. -/
theorem field_text (p : Nat) (hp : 0 < p) (x : Float32) (hx : x.isFinite = true) :
    IsFixedDecimal p (fmtFixed p x) ∧ (∀ c ∈ fmtFixed p x, (c != ',') = true) ∧
    ∃ v : ℚ, parseFixed p (fmtFixed p x) = some v ∧
      |v - x.toRat| ≤ 1 / (2 * (10 : ℚ) ^ p) ∧
      ((∃ K : ℤ, x.toRat * (10 : ℚ) ^ p = K) → v = x.toRat) := by
  cases x with
  | inf s => simp [Float32.isFinite] at hx
  | nan => simp [Float32.isFinite] at hx
  | finite neg m e =>
    refine ⟨fmtFixed_isFixedDecimal p hp neg m e, fmtFixed_no_comma p hp neg m e, _,
      parseFixed_fmtFixed p hp neg m e, ?_, ?_⟩
    · rw [toRat_sign, ← mul_sub, abs_mul]
      have hs : |(if neg = true then (-1 : ℚ) else 1)| = 1 := by cases neg <;> simp
      rw [hs, one_mul]
      exact fixedUnits_error p m e
    · rintro ⟨K, hK⟩
      have habs : (m : ℚ) * (2 : ℚ) ^ e * (10 : ℚ) ^ p = (K.natAbs : ℚ) := by
        have h1 : |(Float32.finite neg m e).toRat * (10 : ℚ) ^ p| = |(K : ℚ)| := by rw [hK]
        rw [abs_mul, abs_toRat, abs_of_pos (show (0 : ℚ) < (10 : ℚ) ^ p by positivity)] at h1
        rw [h1, Nat.cast_natAbs, Int.cast_abs]
      rw [toRat_sign, fixedUnits_exact p m e K.natAbs habs]

/-! ## Rounding to binary32 -/

theorem bitLenAux_zero (f : Nat) : Float32.bitLenAux f 0 = 0 := by
  cases f <;> simp [Float32.bitLenAux]

theorem bitLenAux_spec (f : Nat) : ∀ n : Nat, n ≤ f → 0 < n →
    0 < Float32.bitLenAux f n ∧ 2 ^ (Float32.bitLenAux f n - 1) ≤ n ∧
      n < 2 ^ Float32.bitLenAux f n := by
  induction f with
  | zero => intro n h hn; omega
  | succ f ih =>
    intro n h hn
    have hn0 : ¬ n = 0 := by omega
    simp only [Float32.bitLenAux, hn0, if_false]
    rcases Nat.eq_zero_or_pos (n / 2) with h2 | h2
    · have h1 : n = 1 := by omega
      rw [h2, bitLenAux_zero]
      subst h1
      simp
    · obtain ⟨hpos, hlo, hhi⟩ := ih (n / 2) (by omega) h2
      generalize Float32.bitLenAux f (n / 2) = L at hpos hlo hhi
      obtain ⟨L', rfl⟩ : ∃ L', L = L' + 1 := ⟨L - 1, by omega⟩
      simp only [Nat.add_sub_cancel] at hlo ⊢
      refine ⟨by omega, ?_, ?_⟩
      · rw [pow_succ]; omega
      · rw [pow_succ]; omega

theorem bitLen_spec (n : Nat) (hn : 0 < n) :
    0 < Float32.bitLen n ∧ 2 ^ (Float32.bitLen n - 1) ≤ n ∧ n < 2 ^ Float32.bitLen n :=
  bitLenAux_spec n n (le_refl n) hn

theorem two_zpow_split (d : Int) :
    (2 : ℚ) ^ d = ((2 ^ d.toNat : Nat) : ℚ) / ((2 ^ (-d).toNat : Nat) : ℚ) := by
  have h := frac_eq 1 d
  simp only [Float32.fracNum, Float32.fracDen, one_mul, Nat.cast_one] at h
  exact h.symm

theorem two_zpow_pos (d : Int) : (0 : ℚ) < (2 : ℚ) ^ d := by positivity

theorem two_zpow_lt (a b : Int) (h : (2 : ℚ) ^ a < (2 : ℚ) ^ b) : a < b := by
  by_contra hcon
  have hle : b ≤ a := by omega
  have : (2 : ℚ) ^ b ≤ (2 : ℚ) ^ a := zpow_le_zpow_right₀ (by norm_num) hle
  linarith

theorem two_zpow_le (a b : Int) (h : a ≤ b) : (2 : ℚ) ^ a ≤ (2 : ℚ) ^ b :=
  zpow_le_zpow_right₀ (by norm_num) h

/-- `floorLog2` is the binary order of magnitude of `num / den`. -/
theorem floorLog2_spec (num den : Nat) (hnum : 0 < num) (hden : 0 < den) :
    (2 : ℚ) ^ Float32.floorLog2 num den ≤ (num : ℚ) / den ∧
      (num : ℚ) / den < (2 : ℚ) ^ (Float32.floorLog2 num den + 1) := by
  obtain ⟨ha0, ha1, ha2⟩ := bitLen_spec num hnum
  obtain ⟨hb0, hb1, hb2⟩ := bitLen_spec den hden
  have hden' : (0 : ℚ) < den := by exact_mod_cast hden
  have hnum' : (0 : ℚ) < num := by exact_mod_cast hnum
  -- the bounds on numerator and denominator, as integer powers
  have ha1' : (2 : ℚ) ^ ((Float32.bitLen num : Int) - 1) ≤ num := by
    have : ((2 ^ (Float32.bitLen num - 1) : Nat) : ℚ) ≤ num := by exact_mod_cast ha1
    have hc : ((Float32.bitLen num - 1 : Nat) : Int) = (Float32.bitLen num : Int) - 1 := by omega
    rw [← hc, zpow_natCast]
    exact_mod_cast ha1
  have ha2' : (num : ℚ) < (2 : ℚ) ^ (Float32.bitLen num : Int) := by
    rw [zpow_natCast]; exact_mod_cast ha2
  have hb1' : (2 : ℚ) ^ ((Float32.bitLen den : Int) - 1) ≤ den := by
    have hc : ((Float32.bitLen den - 1 : Nat) : Int) = (Float32.bitLen den : Int) - 1 := by omega
    rw [← hc, zpow_natCast]
    exact_mod_cast hb1
  have hb2' : (den : ℚ) < (2 : ℚ) ^ (Float32.bitLen den : Int) := by
    rw [zpow_natCast]; exact_mod_cast hb2
  have hupper : (num : ℚ) / den <
      (2 : ℚ) ^ ((Float32.bitLen num : Int) - (Float32.bitLen den : Int) + 1) := by
    rw [div_lt_iff₀ hden']
    calc (num : ℚ) < (2 : ℚ) ^ (Float32.bitLen num : Int) := ha2'
      _ = (2 : ℚ) ^ ((Float32.bitLen num : Int) - (Float32.bitLen den : Int) + 1) *
            (2 : ℚ) ^ ((Float32.bitLen den : Int) - 1) := by
          rw [← zpow_add₀ (by norm_num : (2 : ℚ) ≠ 0)]; congr 1; ring
      _ ≤ _ := by
          apply mul_le_mul_of_nonneg_left hb1' (two_zpow_pos _).le
  have hlower : (2 : ℚ) ^ ((Float32.bitLen num : Int) - (Float32.bitLen den : Int) - 1) ≤
      (num : ℚ) / den := by
    rw [le_div_iff₀ hden']
    calc (2 : ℚ) ^ ((Float32.bitLen num : Int) - (Float32.bitLen den : Int) - 1) * den
        ≤ (2 : ℚ) ^ ((Float32.bitLen num : Int) - (Float32.bitLen den : Int) - 1) *
            (2 : ℚ) ^ (Float32.bitLen den : Int) := by
          apply mul_le_mul_of_nonneg_left hb2'.le (two_zpow_pos _).le
      _ = (2 : ℚ) ^ ((Float32.bitLen num : Int) - 1) := by
          rw [← zpow_add₀ (by norm_num : (2 : ℚ) ≠ 0)]; congr 1; ring
      _ ≤ num := ha1'
  -- the test decides on which side of `2 ^ d` the quotient lies
  have htest : den * 2 ^ ((Float32.bitLen num : Int) - (Float32.bitLen den : Int)).toNat ≤
        num * 2 ^ (-((Float32.bitLen num : Int) - (Float32.bitLen den : Int))).toNat ↔
      (2 : ℚ) ^ ((Float32.bitLen num : Int) - (Float32.bitLen den : Int)) ≤ (num : ℚ) / den := by
    rw [two_zpow_split, div_le_div_iff₀ (by positivity) hden']
    constructor
    · intro h
      have : ((den * 2 ^ ((Float32.bitLen num : Int) - (Float32.bitLen den : Int)).toNat : Nat) : ℚ)
          ≤ ((num * 2 ^ (-((Float32.bitLen num : Int) - (Float32.bitLen den : Int))).toNat : Nat) : ℚ) := by
        exact_mod_cast h
      push_cast at this ⊢
      linarith
    · intro h
      have : ((den * 2 ^ ((Float32.bitLen num : Int) - (Float32.bitLen den : Int)).toNat : Nat) : ℚ)
          ≤ ((num * 2 ^ (-((Float32.bitLen num : Int) - (Float32.bitLen den : Int))).toNat : Nat) : ℚ) := by
        push_cast at h ⊢
        linarith
      exact_mod_cast this
  unfold Float32.floorLog2
  simp only
  split_ifs with h
  · exact ⟨htest.mp h, hupper⟩
  · refine ⟨hlower, ?_⟩
    rw [sub_add_cancel]
    exact not_le.mp (fun hc => h (htest.mpr hc))

theorem two_zpow_add (a b : Int) : (2 : ℚ) ^ (a + b) = (2 : ℚ) ^ a * (2 : ℚ) ^ b :=
  zpow_add₀ (by norm_num) a b

theorem scaled_quot (num den : Nat) (e : Int) :
    ((num * 2 ^ (-e).toNat : Nat) : ℚ) / ((den * 2 ^ e.toNat : Nat) : ℚ) =
      (num : ℚ) / den * (2 : ℚ) ^ (-e) := by
  have h := two_zpow_split (-e)
  rw [neg_neg] at h
  rw [h]
  push_cast
  rw [div_mul_div_comm]

theorem round_eq (neg : Bool) (num den : Nat) (hnum : num ≠ 0) :
    Float32.round neg num den =
      if 104 < (if Float32.roundHalfEven
            (num * 2 ^ (-(max (Float32.floorLog2 num den - 23) (-149))).toNat)
            (den * 2 ^ (max (Float32.floorLog2 num den - 23) (-149)).toNat) = 2 ^ 24
          then max (Float32.floorLog2 num den - 23) (-149) + 1
          else max (Float32.floorLog2 num den - 23) (-149))
      then Float32.inf neg
      else Float32.finite neg
        (if Float32.roundHalfEven
            (num * 2 ^ (-(max (Float32.floorLog2 num den - 23) (-149))).toNat)
            (den * 2 ^ (max (Float32.floorLog2 num den - 23) (-149)).toNat) = 2 ^ 24
          then 2 ^ 23
          else Float32.roundHalfEven
            (num * 2 ^ (-(max (Float32.floorLog2 num den - 23) (-149))).toNat)
            (den * 2 ^ (max (Float32.floorLog2 num den - 23) (-149)).toNat))
        (if Float32.roundHalfEven
            (num * 2 ^ (-(max (Float32.floorLog2 num den - 23) (-149))).toNat)
            (den * 2 ^ (max (Float32.floorLog2 num den - 23) (-149)).toNat) = 2 ^ 24
          then max (Float32.floorLog2 num den - 23) (-149) + 1
          else max (Float32.floorLog2 num den - 23) (-149)) := by
  unfold Float32.round
  simp only [hnum, if_false]

/-- Rounding a magnitude in the normal range: the result is finite, normalised,
and within a relative error of `2^-24`. -/
theorem round_spec (neg : Bool) (num den : Nat) (hnum : 0 < num) (hden : 0 < den)
    (hlo : (2 : ℚ) ^ (-126 : Int) ≤ (num : ℚ) / den)
    (hhi : (num : ℚ) / den < (2 : ℚ) ^ (127 : Int)) :
    ∃ (m : Nat) (e : Int), Float32.round neg num den = Float32.finite neg m e ∧
      2 ^ 23 ≤ m ∧ m < 2 ^ 24 ∧ -149 ≤ e ∧ e ≤ 104 ∧
      (num : ℚ) / den < (2 : ℚ) ^ (e + 24) ∧
      |(m : ℚ) * (2 : ℚ) ^ e - (num : ℚ) / den| ≤ (num : ℚ) / den * (2 : ℚ) ^ (-24 : Int) := by
  obtain ⟨hk1, hk2⟩ := floorLog2_spec num den hnum hden
  have hden' : 0 < den * 2 ^ (Float32.floorLog2 num den - 23).toNat :=
    Nat.mul_pos hden (Nat.pos_pow_of_pos _ (by decide))
  have herr := roundHalfEven_error (num * 2 ^ (-(Float32.floorLog2 num den - 23)).toNat)
    (den * 2 ^ (Float32.floorLog2 num den - 23).toNat) hden'
  rw [scaled_quot] at herr
  rw [round_eq neg num den (by omega)]
  have hklo : -126 ≤ Float32.floorLog2 num den := by
    have := two_zpow_lt _ _ (lt_of_le_of_lt hlo hk2)
    omega
  have hkhi : Float32.floorLog2 num den ≤ 126 := by
    have := two_zpow_lt _ _ (lt_of_le_of_lt hk1 hhi)
    omega
  have hmax : max (Float32.floorLog2 num den - 23) (-149) = Float32.floorLog2 num den - 23 := by
    omega
  rw [hmax]
  generalize Float32.floorLog2 num den = k at *
  generalize hx : (num : ℚ) / den = x at *
  generalize Float32.roundHalfEven (num * 2 ^ (-(k - 23)).toNat) (den * 2 ^ (k - 23).toNat) = m
    at *
  have hxe : x = x * (2 : ℚ) ^ (-(k - 23)) * (2 : ℚ) ^ (k - 23) := by
    rw [mul_assoc, ← two_zpow_add]
    simp
  have hy1 : (8388608 : ℚ) ≤ x * (2 : ℚ) ^ (-(k - 23)) := by
    have h23 : (8388608 : ℚ) = (2 : ℚ) ^ k * (2 : ℚ) ^ (-(k - 23)) := by
      rw [← two_zpow_add, show k + -(k - 23) = (23 : Int) by ring]; norm_num
    rw [h23]
    exact mul_le_mul_of_nonneg_right hk1 (two_zpow_pos _).le
  have hy2 : x * (2 : ℚ) ^ (-(k - 23)) < 16777216 := by
    have h24 : (16777216 : ℚ) = (2 : ℚ) ^ (k + 1) * (2 : ℚ) ^ (-(k - 23)) := by
      rw [← two_zpow_add, show k + 1 + -(k - 23) = (24 : Int) by ring]; norm_num
    rw [h24]
    exact mul_lt_mul_of_pos_right hk2 (two_zpow_pos _)
  rw [abs_le] at herr
  have hm1 : 8388608 ≤ m := by
    have : (8388607 : ℚ) < (m : ℚ) := by linarith [herr.1]
    have : 8388607 < m := by exact_mod_cast this
    omega
  have hm2 : m ≤ 16777216 := by
    have : (m : ℚ) < 16777217 := by linarith [herr.2]
    have : m < 16777217 := by exact_mod_cast this
    omega
  have hpe : (0 : ℚ) < (2 : ℚ) ^ (k - 23) := two_zpow_pos _
  have hhalf : (2 : ℚ) ^ (k - 23) / 2 ≤ x * (2 : ℚ) ^ (-24 : Int) := by
    have h1 : (2 : ℚ) ^ (k - 23) / 2 = (2 : ℚ) ^ k * (2 : ℚ) ^ (-24 : Int) := by
      rw [show k - 23 = k + (-24 : Int) + 1 by ring, two_zpow_add, two_zpow_add]
      norm_num
    rw [h1]
    exact mul_le_mul_of_nonneg_right hk1 (two_zpow_pos _).le
  have hval : |(m : ℚ) * (2 : ℚ) ^ (k - 23) - x| ≤ x * (2 : ℚ) ^ (-24 : Int) := by
    have h1 : (m : ℚ) * (2 : ℚ) ^ (k - 23) - x =
        ((m : ℚ) - x * (2 : ℚ) ^ (-(k - 23))) * (2 : ℚ) ^ (k - 23) := by
      rw [sub_mul, ← hxe]
    rw [h1, abs_mul, abs_of_pos hpe]
    have h2 : |(m : ℚ) - x * (2 : ℚ) ^ (-(k - 23))| ≤ 1 / 2 := abs_le.mpr herr
    calc |(m : ℚ) - x * (2 : ℚ) ^ (-(k - 23))| * (2 : ℚ) ^ (k - 23)
        ≤ 1 / 2 * (2 : ℚ) ^ (k - 23) := mul_le_mul_of_nonneg_right h2 hpe.le
      _ = (2 : ℚ) ^ (k - 23) / 2 := by ring
      _ ≤ _ := hhalf
  have hxlt : x < (2 : ℚ) ^ (k - 23 + 24) := by
    rw [show k - 23 + 24 = k + 1 by ring]; exact hk2
  by_cases hm : m = 2 ^ 24
  · simp only [hm, if_true]
    have h104 : ¬ (104 : Int) < k - 23 + 1 := by omega
    refine ⟨2 ^ 23, k - 23 + 1, by simp only [h104, if_false], le_refl _, by norm_num,
      by omega, by omega, ?_, ?_⟩
    · exact lt_of_lt_of_le hxlt (two_zpow_le _ _ (by omega))
    · have h2 : ((2 ^ 23 : Nat) : ℚ) * (2 : ℚ) ^ (k - 23 + 1) = (m : ℚ) * (2 : ℚ) ^ (k - 23) := by
        rw [hm, two_zpow_add]
        norm_num
        ring
      rw [h2]
      exact hval
  · simp only [hm, if_false]
    have h104 : ¬ (104 : Int) < k - 23 := by omega
    refine ⟨m, k - 23, by simp only [h104, if_false], hm1, ?_, by omega, by omega, hxlt, hval⟩
    have : m ≠ 16777216 := by simpa using hm
    omega

/-- Rounding a magnitude that binary32 holds exactly returns that magnitude. -/
theorem round_exact (neg : Bool) (num den M : Nat) (E : Int) (hnum : 0 < num) (hden : 0 < den)
    (hx : (num : ℚ) / den = (M : ℚ) * (2 : ℚ) ^ E) (hM : M < 2 ^ 24)
    (hE : -149 ≤ E) (hE' : E ≤ 104) :
    ∃ (m : Nat) (e : Int), Float32.round neg num den = Float32.finite neg m e ∧
      (m : ℚ) * (2 : ℚ) ^ e = (M : ℚ) * (2 : ℚ) ^ E ∧ m < 2 ^ 24 ∧ -149 ≤ e ∧ e ≤ 104 := by
  obtain ⟨hk1, hk2⟩ := floorLog2_spec num den hnum hden
  rw [round_eq neg num den (by omega)]
  have hM' : (M : ℚ) < 16777216 := by exact_mod_cast hM
  have hkE : Float32.floorLog2 num den < 24 + E := by
    apply two_zpow_lt
    calc (2 : ℚ) ^ Float32.floorLog2 num den ≤ (num : ℚ) / den := hk1
      _ = (M : ℚ) * (2 : ℚ) ^ E := hx
      _ < 16777216 * (2 : ℚ) ^ E := mul_lt_mul_of_pos_right hM' (two_zpow_pos _)
      _ = (2 : ℚ) ^ (24 + E) := by rw [two_zpow_add]; norm_num
  generalize Float32.floorLog2 num den = k at *
  have hemax : max (k - 23) (-149) ≤ E := by omega
  have hemin : -149 ≤ max (k - 23) (-149) := by omega
  have hek : k - 23 ≤ max (k - 23) (-149) := by omega
  generalize max (k - 23) (-149) = e at *
  have hden' : 0 < den * 2 ^ e.toNat := Nat.mul_pos hden (Nat.pos_pow_of_pos _ (by decide))
  have hquot : ((num * 2 ^ (-e).toNat : Nat) : ℚ) / ((den * 2 ^ e.toNat : Nat) : ℚ) =
      ((M * 2 ^ (E - e).toNat : Nat) : ℚ) := by
    rw [scaled_quot, hx, mul_assoc, ← two_zpow_add]
    have hc : ((E - e).toNat : Int) = E + -e := by omega
    push_cast
    rw [← zpow_natCast, hc]
  have hround := roundHalfEven_exact _ _ _ hden' hquot
  rw [hround]
  have hKlt : M * 2 ^ (E - e).toNat < 2 ^ 24 := by
    have h1 : ((M * 2 ^ (E - e).toNat : Nat) : ℚ) < (2 : ℚ) ^ (24 : Int) := by
      rw [← hquot, scaled_quot]
      calc (num : ℚ) / den * (2 : ℚ) ^ (-e) < (2 : ℚ) ^ (k + 1) * (2 : ℚ) ^ (-e) :=
            mul_lt_mul_of_pos_right hk2 (two_zpow_pos _)
        _ = (2 : ℚ) ^ (k + 1 + -e) := (two_zpow_add _ _).symm
        _ ≤ (2 : ℚ) ^ (24 : Int) := two_zpow_le _ _ (by omega)
    have h2 : ((M * 2 ^ (E - e).toNat : Nat) : ℚ) < ((2 ^ 24 : Nat) : ℚ) := by
      rw [show ((2 ^ 24 : Nat) : ℚ) = (2 : ℚ) ^ (24 : Int) by norm_num]
      exact h1
    exact_mod_cast h2
  have hne : ¬ M * 2 ^ (E - e).toNat = 2 ^ 24 := by omega
  have h104 : ¬ (104 : Int) < e := by omega
  simp only [hne, h104, if_false]
  refine ⟨_, _, rfl, ?_, hKlt, hemin, by omega⟩
  rw [← hquot, scaled_quot, hx, mul_assoc, mul_assoc, ← two_zpow_add, ← two_zpow_add]
  congr 2
  ring

theorem toRat_finite_false (m : Nat) (e : Int) :
    (Float32.finite false m e).toRat = (m : ℚ) * (2 : ℚ) ^ e := by
  simp [Float32.toRat]

/-- The value `3.3f`. -/
theorem ofDecimal_33_10 : Float32.ofDecimal 33 10 = Float32.finite false 13841203 (-22) := by
  decide

/-- The value `4096.0f`. -/
theorem ofDecimal_4096 : Float32.ofDecimal 4096 1 = Float32.finite false 8388608 (-11) := by
  decide

/-- The scaled voltage of a non-zero raw code below `2^24`: a finite, non-negative
`float` whose value is `raw * 3.3f`, rounded once to binary32, over 4096. -/
theorem scaleRaw_spec (r : Nat) (h0 : 0 < r) (hr : r < 2 ^ 24) :
    ∃ (m : Nat) (e : Int), scaleRaw r = Float32.finite false m e ∧
      |(m : ℚ) * (2 : ℚ) ^ e - (r : ℚ) * (13841203 / 4194304) / 4096| ≤
        (r : ℚ) * (13841203 / 4194304) / 4096 * (2 : ℚ) ^ (-24 : Int) := by
  have hr' : (r : ℚ) < 16777216 := by exact_mod_cast hr
  have hr1 : (1 : ℚ) ≤ (r : ℚ) := by exact_mod_cast h0
  -- conversion of the raw code: exact
  have hmod : r % 2 ^ 32 = r := Nat.mod_eq_of_lt (by omega)
  obtain ⟨m1, e1, hc1, hv1, -, -, -⟩ := round_exact false r 1 r 0 h0 (by decide) (by simp) hr
    (by decide) (by decide)
  -- product with 3.3f: one rounding
  have hq2 : ((Float32.fracNum m1 e1 * Float32.fracNum 13841203 (-22) : Nat) : ℚ) /
      ((Float32.fracDen e1 * Float32.fracDen (-22) : Nat) : ℚ) =
      (r : ℚ) * (13841203 / 4194304) := by
    push_cast
    rw [← div_mul_div_comm, frac_eq, frac_eq, hv1]
    norm_num
  have hn2 : 0 < Float32.fracNum m1 e1 * Float32.fracNum 13841203 (-22) := by
    have h : (0 : ℚ) < ((Float32.fracNum m1 e1 * Float32.fracNum 13841203 (-22) : Nat) : ℚ) /
        ((Float32.fracDen e1 * Float32.fracDen (-22) : Nat) : ℚ) := by
      rw [hq2]; positivity
    rcases Nat.eq_zero_or_pos (Float32.fracNum m1 e1 * Float32.fracNum 13841203 (-22)) with h' | h'
    · rw [h'] at h; simp at h
    · exact h'
  have hd2 : 0 < Float32.fracDen e1 * Float32.fracDen (-22) :=
    Nat.mul_pos (fracDen_pos _) (fracDen_pos _)
  obtain ⟨m2, e2, hc2, hm2lo, hm2, he2lo, he2hi, hx2, herr2⟩ := round_spec false _ _ hn2 hd2
    (by rw [hq2]
        calc (2 : ℚ) ^ (-126 : Int) ≤ (2 : ℚ) ^ (0 : Int) := two_zpow_le _ _ (by decide)
          _ = 1 := by norm_num
          _ ≤ (r : ℚ) * (13841203 / 4194304) := by linarith)
    (by rw [hq2]
        calc (r : ℚ) * (13841203 / 4194304) < (2 : ℚ) ^ (26 : Int) := by norm_num; linarith
          _ ≤ (2 : ℚ) ^ (127 : Int) := two_zpow_le _ _ (by decide))
  rw [hq2] at hx2 herr2
  have he2 : -23 < e2 := by
    have h1 : (2 : ℚ) ^ (1 : Int) < (2 : ℚ) ^ (e2 + 24) := by
      calc (2 : ℚ) ^ (1 : Int) = 2 := by norm_num
        _ < (r : ℚ) * (13841203 / 4194304) := by linarith
        _ < _ := hx2
    have := two_zpow_lt _ _ h1
    omega
  -- quotient by 4096.0f: exact
  have hm2pos : 0 < m2 := by omega
  have hq3 : ((Float32.fracNum m2 e2 * Float32.fracDen (-11) : Nat) : ℚ) /
      ((Float32.fracDen e2 * Float32.fracNum 8388608 (-11) : Nat) : ℚ) =
      (m2 : ℚ) * (2 : ℚ) ^ (e2 - 12) := by
    have h4096 : (Float32.fracNum 8388608 (-11) : ℚ) / (Float32.fracDen (-11) : ℚ) = 4096 := by
      rw [frac_eq]; norm_num
    have hfd : (Float32.fracDen (-11) : ℚ) ≠ 0 := by
      have := fracDen_pos (-11)
      exact_mod_cast this.ne'
    have hfn : (Float32.fracNum 8388608 (-11) : ℚ) = 4096 * (Float32.fracDen (-11) : ℚ) := by
      rw [← h4096]; field_simp
    have hfd2 : (Float32.fracDen e2 : ℚ) ≠ 0 := by
      have := fracDen_pos e2
      exact_mod_cast this.ne'
    have h12 : (2 : ℚ) ^ (-12 : Int) = 1 / 4096 := by norm_num
    have hrhs : (m2 : ℚ) * (2 : ℚ) ^ (e2 - 12) =
        (Float32.fracNum m2 e2 : ℚ) / (Float32.fracDen e2 : ℚ) * (1 / 4096) := by
      rw [frac_eq, show e2 - 12 = e2 + (-12 : Int) by ring, two_zpow_add, h12, mul_assoc]
    rw [hrhs]
    push_cast
    rw [hfn]
    field_simp
    ring
  have hn3 : 0 < Float32.fracNum m2 e2 * Float32.fracDen (-11) := by
    apply Nat.mul_pos _ (fracDen_pos _)
    unfold Float32.fracNum
    exact Nat.mul_pos hm2pos (Nat.pos_pow_of_pos _ (by decide))
  have hd3 : 0 < Float32.fracDen e2 * Float32.fracNum 8388608 (-11) :=
    Nat.mul_pos (fracDen_pos _) (by decide)
  obtain ⟨m3, e3, hc3, hv3, -, -, -⟩ := round_exact false _ _ m2 (e2 - 12) hn3 hd3 hq3 hm2
    (by omega) (by omega)
  refine ⟨m3, e3, ?_, ?_⟩
  · unfold scaleRaw Float32.ofUInt32
    rw [hmod, hc1, ofDecimal_33_10, ofDecimal_4096]
    simp only [Float32.mul, Bool.xor_false]
    rw [hc2]
    have h8 : ¬ (8388608 : Nat) = 0 := by decide
    simp only [Float32.div, h8, if_false, Bool.xor_false]
    exact hc3
  · rw [hv3, show e2 - 12 = e2 + (-12 : Int) by ring, two_zpow_add]
    have h12 : (2 : ℚ) ^ (-12 : Int) = 1 / 4096 := by norm_num
    rw [h12]
    have hrew : (m2 : ℚ) * ((2 : ℚ) ^ e2 * (1 / 4096)) - (r : ℚ) * (13841203 / 4194304) / 4096 =
        ((m2 : ℚ) * (2 : ℚ) ^ e2 - (r : ℚ) * (13841203 / 4194304)) / 4096 := by ring
    rw [hrew, abs_div, abs_of_pos (show (0 : ℚ) < 4096 by norm_num)]
    have := div_le_div_of_nonneg_right herr2 (show (0 : ℚ) ≤ 4096 by norm_num)
    calc _ ≤ (r : ℚ) * (13841203 / 4194304) * (2 : ℚ) ^ (-24 : Int) / 4096 := this
      _ = _ := by ring

/-- The raw code 0 scales to `0.0f`. -/
theorem scaleRaw_zero : scaleRaw 0 = Float32.finite false 0 (-149) := by decide

/-! ## The scaled voltage of a raw code -/

/-- The scaled voltage of a raw code below `2^24` is a finite, non-negative `float`
within a relative error of `2^-24` of `raw * 3.3f / 4096`. -/
theorem scaleRaw_value (r : Nat) (hr : r < 2 ^ 24) :
    ∃ (m : Nat) (e : Int), scaleRaw r = Float32.finite false m e ∧
      |(scaleRaw r).toRat - (r : ℚ) * (13841203 / 4194304) / 4096| ≤
        (r : ℚ) * (13841203 / 4194304) / 4096 * (2 : ℚ) ^ (-24 : Int) := by
  rcases Nat.eq_zero_or_pos r with rfl | h0
  · refine ⟨0, -149, scaleRaw_zero, ?_⟩
    rw [scaleRaw_zero]
    simp [Float32.toRat]
  · obtain ⟨m, e, h, herr⟩ := scaleRaw_spec r h0 hr
    refine ⟨m, e, h, ?_⟩
    rw [h, toRat_finite_false]
    exact herr

theorem scaleRaw_lower (r : Nat) (hr : r < 2 ^ 24) :
    (r : ℚ) * (13841203 / 4194304) / 4096 * (1 - 1 / 16777216) ≤ (scaleRaw r).toRat := by
  obtain ⟨m, e, -, herr⟩ := scaleRaw_value r hr
  have h24 : (2 : ℚ) ^ (-24 : Int) = 1 / 16777216 := by norm_num
  rw [h24, abs_le] at herr
  linarith [herr.1]

theorem scaleRaw_upper (r : Nat) (hr : r < 2 ^ 24) :
    (scaleRaw r).toRat ≤ (r : ℚ) * (13841203 / 4194304) / 4096 * (1 + 1 / 16777216) := by
  obtain ⟨m, e, -, herr⟩ := scaleRaw_value r hr
  have h24 : (2 : ℚ) ^ (-24 : Int) = 1 / 16777216 := by norm_num
  rw [h24, abs_le] at herr
  linarith [herr.2]

/-- Distance of the scaled voltage of a 12-bit raw code from `raw * 3.3 / 4096`. -/
theorem scaleRaw_error (r : Nat) (hr : r ≤ 4095) :
    |(scaleRaw r).toRat - (r : ℚ) * 3.3 / 4096| < 1 / 4000000 := by
  have hr' : (r : ℚ) ≤ 4095 := by exact_mod_cast hr
  have hr0 : (0 : ℚ) ≤ (r : ℚ) := by positivity
  have hlo := scaleRaw_lower r (by omega)
  have hhi := scaleRaw_upper r (by omega)
  rw [abs_lt]
  constructor
  · nlinarith
  · nlinarith

/-- The scaled voltage grows strictly with the raw code. -/
theorem scaleRaw_strictMono (r1 r2 : Nat) (h : r1 < r2) (h2 : r2 ≤ 4095) :
    (scaleRaw r1).toRat < (scaleRaw r2).toRat := by
  have hhi := scaleRaw_upper r1 (by omega)
  have hlo := scaleRaw_lower r2 (by omega)
  have h12 : (r1 : ℚ) + 1 ≤ (r2 : ℚ) := by exact_mod_cast h
  have h2' : (r2 : ℚ) ≤ 4095 := by exact_mod_cast h2
  have h0 : (0 : ℚ) ≤ (r1 : ℚ) := by positivity
  nlinarith

/-- The scaled voltage of a 12-bit raw code is below 3.3. -/
theorem scaleRaw_lt (r : Nat) (hr : r ≤ 4095) : (scaleRaw r).toRat < 33 / 10 := by
  have hhi := scaleRaw_upper r (by omega)
  have hr' : (r : ℚ) ≤ 4095 := by exact_mod_cast hr
  nlinarith

/-- The `%.2f` text of the scaled voltage of a 12-bit raw code: one integer
digit, the point and two decimals, for a number of hundredths up to 330. -/
theorem scaleRaw_text (r : Nat) (hr : r ≤ 4095) :
    ∃ u : Nat, u ≤ 330 ∧
      fmtFixed 2 (scaleRaw r) =
        Nat.digitChar (u / 100) :: '.' :: padDigits 2 (u % 100) ∧
      (fmtFixed 2 (scaleRaw r)).length = 4 := by
  obtain ⟨m, e, h, -⟩ := scaleRaw_value r (by omega)
  have hlt := scaleRaw_lt r hr
  rw [h, toRat_finite_false] at hlt
  have herr := fixedUnits_error 2 m e
  rw [abs_le] at herr
  have hu : fixedUnits 2 m e ≤ 330 := by
    have h1 : (fixedUnits 2 m e : ℚ) < 331 := by
      have := herr.2
      have h100 : (fixedUnits 2 m e : ℚ) / (10 : ℚ) ^ 2 = (fixedUnits 2 m e : ℚ) / 100 := by
        norm_num
      rw [h100] at this
      have h3 : (fixedUnits 2 m e : ℚ) / 100 < 331 / 100 := by
        norm_num at this ⊢
        linarith
      linarith
    have : fixedUnits 2 m e < 331 := by exact_mod_cast h1
    omega
  have hdig : Nat.toDigits 10 (fixedUnits 2 m e / 10 ^ 2) =
      [Nat.digitChar (fixedUnits 2 m e / 100)] := by
    rw [toDigits_rec, if_pos (by norm_num; omega)]
    norm_num
  have htext : fmtFixed 2 (Float32.finite false m e) =
      Nat.digitChar (fixedUnits 2 m e / 100) :: '.' :: padDigits 2 (fixedUnits 2 m e % 100) := by
    rw [fmtFixed_finite 2 (by decide), hdig]
    simp
  refine ⟨fixedUnits 2 m e, hu, by rw [h, htext], ?_⟩
  rw [h, htext]
  have := padDigits_length 2 (fixedUnits 2 m e % 100) (by decide)
    (Nat.mod_lt _ (by decide))
  simp [this]

/-- The `%.1f` text of 25.0f. -/
theorem temperature_text : fmtFixed 1 (Float32.ofDecimal 25 1) = "25.0".toList := by decide

/-- The `%.1f` text of any binary32 value has at most 42 characters. -/
theorem fmtFixed_one_length (t : Float32) (ht : t.Representable) :
    (fmtFixed 1 t).length ≤ 42 := by
  cases t with
  | nan => decide
  | inf s => cases s <;> decide
  | finite neg m e =>
    obtain ⟨hm, -, he⟩ := ht
    have hv : (m : ℚ) * (2 : ℚ) ^ e < (2 : ℚ) ^ (128 : Int) := by
      have hm' : (m : ℚ) < (2 : ℚ) ^ (24 : Int) := by
        have : (m : ℚ) < ((2 ^ 24 : Nat) : ℚ) := by exact_mod_cast hm
        norm_num at this ⊢
        exact this
      calc (m : ℚ) * (2 : ℚ) ^ e < (2 : ℚ) ^ (24 : Int) * (2 : ℚ) ^ e :=
            mul_lt_mul_of_pos_right hm' (two_zpow_pos _)
        _ = (2 : ℚ) ^ (24 + e) := (two_zpow_add _ _).symm
        _ ≤ (2 : ℚ) ^ (128 : Int) := two_zpow_le _ _ (by omega)
    have herr := fixedUnits_error 1 m e
    rw [abs_le, pow_one] at herr
    have hu : fixedUnits 1 m e / 10 ^ 1 < 10 ^ 39 := by
      have h128 : (2 : ℚ) ^ (128 : Int) = ((2 ^ 128 : Nat) : ℚ) := by norm_num
      have hsplit : (fixedUnits 1 m e : ℚ) = (fixedUnits 1 m e : ℚ) / 10 * 10 := by ring
      have h2 : (fixedUnits 1 m e : ℚ) < ((10 * 2 ^ 128 + 1 : Nat) : ℚ) := by
        push_cast
        rw [h128] at hv
        push_cast at hv
        linarith [herr.2]
      have h3 : fixedUnits 1 m e < 10 * 2 ^ 128 + 1 := by exact_mod_cast h2
      apply Nat.div_lt_of_lt_mul
      norm_num at h3 ⊢
      omega
    have hd := toDigits_length_le _ 39 (by decide) hu
    have hp := padDigits_length 1 (fixedUnits 1 m e % 10 ^ 1) (by decide)
      (fixedUnits_mod_lt 1 m e)
    rw [fmtFixed_finite 1 (by decide)]
    simp only [List.length_append, List.length_cons, hp]
    cases neg
    · simp only [Bool.false_eq_true, if_false, List.length_nil]
      omega
    · simp only [if_true, List.length_cons, List.length_nil]
      omega

/-! ## Sensor panel and duty cycle -/

theorem read_adc_fst (adc : Nat → Nat) (ch : AdcChannel) (b : Board) :
    (read_adc adc ch b).1 = scaleRaw (adc b.conversions % 2 ^ 32) := rfl

theorem Sensors_ReadAll_fst (adc : Nat → Nat) (b : Board) :
    (Sensors_ReadAll adc b).1 =
      { ph := scaleRaw (adc b.conversions % 2 ^ 32)
        turbidity := scaleRaw (adc (b.conversions + 1) % 2 ^ 32)
        salinity := scaleRaw (adc (b.conversions + 2) % 2 ^ 32)
        ammonia := scaleRaw (adc (b.conversions + 3) % 2 ^ 32)
        temperature := Float32.ofDecimal 25 1 } := rfl

theorem mainCycle_events (adc : Nat → Nat) (s : MainState) :
    (mainCycle adc s).events = s.events ++
      [MainEvent.Sensors_ReadAll (Sensors_ReadAll adc s.board).1,
       MainEvent.Sensors_FormatPayload (Sensors_ReadAll adc s.board).1
         (Sensors_FormatPayload (Sensors_ReadAll adc s.board).1).1
         (Sensors_FormatPayload (Sensors_ReadAll adc s.board).1).2,
       MainEvent.LORA_Send (Sensors_FormatPayload (Sensors_ReadAll adc s.board).1).1
         (toUInt8 (Sensors_FormatPayload (Sensors_ReadAll adc s.board).1).2),
       MainEvent.HAL_PWR_EnterSTOPMode HalConst.PWR_LOWPOWERREGULATOR_ON
         HalConst.PWR_STOPENTRY_WFI] := rfl

theorem main_events_length (adc : Nat → Nat) (n : Nat) :
    (main adc n).events.length = 7 + 4 * n := by
  induction n with
  | zero => rfl
  | succ n ih =>
    show (mainCycle adc (main adc n)).events.length = _
    rw [mainCycle_events, List.length_append, ih]
    simp only [List.length_cons, List.length_nil]
    omega

theorem main_events_extend (adc : Nat → Nat) (n : Nat) :
    ∃ ext, (main adc n).events = mainInit.events ++ ext := by
  induction n with
  | zero => exact ⟨[], by simp [main]⟩
  | succ n ih =>
    obtain ⟨ext, h⟩ := ih
    have hstep : (main adc (n + 1)).events = _ := mainCycle_events adc (main adc n)
    rw [hstep, h, List.append_assoc]
    exact ⟨_, rfl⟩

/-- C7: `LORA_Init` issues exactly five transceiver commands, in the order
reset, set frequency 868000000, set spreading factor 7, set bandwidth 125000,
set transmit power 14; it reads no conversion, and whatever the transceiver
held before, it then holds exactly these four parameters. -/
theorem LORA_Init_commands (b : Board) :
    (LORA_Init b).trace =
      b.trace ++ [HalCall.SX1276_Reset, HalCall.SX1276_SetFrequency 868000000,
        HalCall.SX1276_SetSpreadingFactor 7, HalCall.SX1276_SetBandwidth 125000,
        HalCall.SX1276_SetTxPower 14] ∧
    (LORA_Init b).conversions = b.conversions ∧
    ∀ r : Radio,
      (r.run [HalCall.SX1276_Reset, HalCall.SX1276_SetFrequency 868000000,
        HalCall.SX1276_SetSpreadingFactor 7, HalCall.SX1276_SetBandwidth 125000,
        HalCall.SX1276_SetTxPower 14]).config =
      { frequency := some 868000000, spreadingFactor := some 7, bandwidth := some 125000,
        txPower := some 14 } :=
  ⟨LORA_Init_trace_eq b, rfl, fun _ => rfl⟩

/-- C8: `LORA_Send data len` issues exactly three transceiver commands, in the
order enter transmit mode, write payload `(data, len)`, wait for transmission
complete; none of them is a reset or a configuration command; the outgoing
buffer then holds the first `len` bytes of `data`; and after `LORA_Init` and any
sequence of sends the transceiver still holds the configuration `LORA_Init` wrote. -/
theorem LORA_Send_commands (data : List Char) (len : Nat) (b : Board) :
    (LORA_Send data len b).trace =
      b.trace ++ [HalCall.SX1276_EnterTxMode, HalCall.SX1276_WritePayload data len,
        HalCall.SX1276_WaitForTxDone] ∧
    [HalCall.SX1276_EnterTxMode, HalCall.SX1276_WritePayload data len,
        HalCall.SX1276_WaitForTxDone].filter isConfigCall = [] ∧
    (∀ r : Radio,
      (r.run [HalCall.SX1276_EnterTxMode, HalCall.SX1276_WritePayload data len,
        HalCall.SX1276_WaitForTxDone]).config = r.config ∧
      (r.run [HalCall.SX1276_EnterTxMode, HalCall.SX1276_WritePayload data len,
        HalCall.SX1276_WaitForTxDone]).txBuffer = data.take len) ∧
    ∀ (sends : List (List Char × Nat)) (r : Radio),
      (r.run ((sends.foldl (fun acc p => LORA_Send p.1 p.2 acc) (LORA_Init b)).trace.drop
        b.trace.length)).config =
      { frequency := some 868000000, spreadingFactor := some 7, bandwidth := some 125000,
        txPower := some 14 } := by
  refine ⟨LORA_Send_trace_eq data len b, rfl, fun r => ⟨rfl, rfl⟩, ?_⟩
  · intro sends r
    obtain ⟨ext, h1, _, h3⟩ := sends_trace sends (LORA_Init b)
    rw [h1, LORA_Init_trace_eq, List.append_assoc, List.drop_left, Radio.run_append, h3]
    rfl

/-- C6: `Sensors_ReadAll` performs exactly four converter reads, of channels 1,
2, 3, 4 in this order (configure, start, poll, get value, four times), stores
the scaled voltage of the first in `ph`, of the second in `turbidity`, of the
third in `salinity`, of the fourth in `ammonia`, and sets `temperature` to the
constant 25.0 whatever the converter returns. -/
theorem Sensors_ReadAll_reads (adc : Nat → Nat) (b : Board) :
    (Sensors_ReadAll adc b).2.trace = b.trace ++
      [HalCall.HAL_ADC_ConfigChannel
          { Channel := AdcChannel.ADC_CHANNEL_1, Rank := HalConst.ADC_REGULAR_RANK_1,
            SamplingTime := HalConst.ADC_SAMPLETIME_71CYCLES_5 },
        HalCall.HAL_ADC_Start,
        HalCall.HAL_ADC_PollForConversion HalConst.HAL_MAX_DELAY,
        HalCall.HAL_ADC_GetValue (adc b.conversions % 2 ^ 32),
        HalCall.HAL_ADC_ConfigChannel
          { Channel := AdcChannel.ADC_CHANNEL_2, Rank := HalConst.ADC_REGULAR_RANK_1,
            SamplingTime := HalConst.ADC_SAMPLETIME_71CYCLES_5 },
        HalCall.HAL_ADC_Start,
        HalCall.HAL_ADC_PollForConversion HalConst.HAL_MAX_DELAY,
        HalCall.HAL_ADC_GetValue (adc (b.conversions + 1) % 2 ^ 32),
        HalCall.HAL_ADC_ConfigChannel
          { Channel := AdcChannel.ADC_CHANNEL_3, Rank := HalConst.ADC_REGULAR_RANK_1,
            SamplingTime := HalConst.ADC_SAMPLETIME_71CYCLES_5 },
        HalCall.HAL_ADC_Start,
        HalCall.HAL_ADC_PollForConversion HalConst.HAL_MAX_DELAY,
        HalCall.HAL_ADC_GetValue (adc (b.conversions + 2) % 2 ^ 32),
        HalCall.HAL_ADC_ConfigChannel
          { Channel := AdcChannel.ADC_CHANNEL_4, Rank := HalConst.ADC_REGULAR_RANK_1,
            SamplingTime := HalConst.ADC_SAMPLETIME_71CYCLES_5 },
        HalCall.HAL_ADC_Start,
        HalCall.HAL_ADC_PollForConversion HalConst.HAL_MAX_DELAY,
        HalCall.HAL_ADC_GetValue (adc (b.conversions + 3) % 2 ^ 32)] ∧
    (Sensors_ReadAll adc b).2.conversions = b.conversions + 4 ∧
    (Sensors_ReadAll adc b).1 =
      { ph := scaleRaw (adc b.conversions % 2 ^ 32)
        turbidity := scaleRaw (adc (b.conversions + 1) % 2 ^ 32)
        salinity := scaleRaw (adc (b.conversions + 2) % 2 ^ 32)
        ammonia := scaleRaw (adc (b.conversions + 3) % 2 ^ 32)
        temperature := Float32.finite false 13107200 (-19) } ∧
    (Sensors_ReadAll adc b).1.temperature.toRat = 25 := by
  refine ⟨?_, rfl, ?_, ?_⟩
  · simp [Sensors_ReadAll, read_adc, Board.call]
  · rw [Sensors_ReadAll_fst]
    have h : Float32.ofDecimal 25 1 = Float32.finite false 13107200 (-19) := by decide
    rw [h]
  · rw [Sensors_ReadAll_fst]
    have h : Float32.ofDecimal 25 1 = Float32.finite false 13107200 (-19) := by decide
    simp only [h, Float32.toRat]
    norm_num

/-- C9: in the event trace of `main` after `n` passes through the loop, the
first seven events are the board set-up, `LORA_Init` and `Sensors_Init`, once
each; they are followed by exactly four events per pass: for pass `k` the
sample (`Sensors_ReadAll`), the encoding of that sample
(`Sensors_FormatPayload`), the send of that encoded payload with the returned
length (`LORA_Send`), and the entry into STOP mode, at positions `7 + 4k` to
`7 + 4k + 3`. On the board, the calls before the loop are the set-up calls, the
five commands of `LORA_Init` and the start of `Sensors_Init`, and each pass adds
the converter calls of the sample, then the three transceiver commands carrying
the payload encoded from that sample, then the entry into STOP mode. -/
theorem main_event_order (adc : Nat → Nat) (n : Nat) :
    (main adc n).events.length = 7 + 4 * n ∧
    (main adc n).events.take 7 =
      [MainEvent.HAL_Init, MainEvent.SystemClock_Config, MainEvent.MX_GPIO_Init,
        MainEvent.MX_SPI1_Init, MainEvent.MX_ADC1_Init, MainEvent.LORA_Init,
        MainEvent.Sensors_Init] ∧
    (∀ k, k < n →
      (main adc n).events[7 + 4 * k]? =
        some (MainEvent.Sensors_ReadAll (Sensors_ReadAll adc (main adc k).board).1) ∧
      (main adc n).events[7 + 4 * k + 1]? =
        some (MainEvent.Sensors_FormatPayload (Sensors_ReadAll adc (main adc k).board).1
          (Sensors_FormatPayload (Sensors_ReadAll adc (main adc k).board).1).1
          (Sensors_FormatPayload (Sensors_ReadAll adc (main adc k).board).1).2) ∧
      (main adc n).events[7 + 4 * k + 2]? =
        some (MainEvent.LORA_Send
          (Sensors_FormatPayload (Sensors_ReadAll adc (main adc k).board).1).1
          (toUInt8 (Sensors_FormatPayload (Sensors_ReadAll adc (main adc k).board).1).2)) ∧
      (main adc n).events[7 + 4 * k + 3]? =
        some (MainEvent.HAL_PWR_EnterSTOPMode HalConst.PWR_LOWPOWERREGULATOR_ON
          HalConst.PWR_STOPENTRY_WFI)) ∧
    (main adc 0).board.trace =
      [HalCall.HAL_Init, HalCall.SystemClock_Config, HalCall.MX_GPIO_Init,
        HalCall.MX_SPI1_Init, HalCall.MX_ADC1_Init, HalCall.SX1276_Reset,
        HalCall.SX1276_SetFrequency 868000000, HalCall.SX1276_SetSpreadingFactor 7,
        HalCall.SX1276_SetBandwidth 125000, HalCall.SX1276_SetTxPower 14,
        HalCall.HAL_ADC_Start] ∧
    (main adc (n + 1)).board.trace =
      (Sensors_ReadAll adc (main adc n).board).2.trace ++
        [HalCall.SX1276_EnterTxMode,
         HalCall.SX1276_WritePayload
           (Sensors_FormatPayload (Sensors_ReadAll adc (main adc n).board).1).1
           (toUInt8 (Sensors_FormatPayload (Sensors_ReadAll adc (main adc n).board).1).2),
         HalCall.SX1276_WaitForTxDone,
         HalCall.HAL_PWR_EnterSTOPMode HalConst.PWR_LOWPOWERREGULATOR_ON
           HalConst.PWR_STOPENTRY_WFI] := by
  refine ⟨main_events_length adc n, ?_, ?_, rfl, ?_⟩
  · obtain ⟨ext, h⟩ := main_events_extend adc n
    rw [h]
    rfl
  rotate_left
  · show (mainCycle adc (main adc n)).board.trace = _
    simp [mainCycle, LORA_Send, Board.call]
  · induction n with
    | zero => intro k hk; exact absurd hk (Nat.not_lt_zero k)
    | succ n ih =>
      intro k hk
      have hlen := main_events_length adc n
      have hstep : (main adc (n + 1)).events = _ := mainCycle_events adc (main adc n)
      rcases Nat.lt_succ_iff_lt_or_eq.mp hk with hlt | rfl
      · obtain ⟨h0, h1, h2, h3⟩ := ih k hlt
        rw [hstep]
        refine ⟨?_, ?_, ?_, ?_⟩
        · rw [List.getElem?_append_left (by omega)]; exact h0
        · rw [List.getElem?_append_left (by omega)]; exact h1
        · rw [List.getElem?_append_left (by omega)]; exact h2
        · rw [List.getElem?_append_left (by omega)]; exact h3
      · rw [hstep]
        refine ⟨?_, ?_, ?_, ?_⟩
        · rw [List.getElem?_append_right (by omega)]
          simp [hlen]
        · rw [List.getElem?_append_right (by omega)]
          simp [hlen, show 7 + 4 * k + 1 - (7 + 4 * k) = 1 by omega]
        · rw [List.getElem?_append_right (by omega)]
          simp [hlen, show 7 + 4 * k + 2 - (7 + 4 * k) = 2 by omega]
        · rw [List.getElem?_append_right (by omega)]
          simp [hlen, show 7 + 4 * k + 3 - (7 + 4 * k) = 3 by omega]

/-- C9, at one pass with a converter that always returns 0. -/
theorem main_event_order_witness :
    0 < 1 ∧
    (main (fun _ => 0) 1).events[7 + 4 * 0 + 3]? =
      some (MainEvent.HAL_PWR_EnterSTOPMode HalConst.PWR_LOWPOWERREGULATOR_ON
        HalConst.PWR_STOPENTRY_WFI) :=
  ⟨by decide, ((main_event_order (fun _ => 0) 1).2.2.1 0 (by decide)).2.2.2⟩

/-! ## The payload encoder -/

theorem renders_of_finite (p : Nat) (hp : 0 < p) (x : Float32) (hx : x.isFinite = true) :
    RendersAs p x (fmtFixed p x) := by
  obtain ⟨h1, -, v, h2, h3, -⟩ := field_text p hp x hx
  exact ⟨h1, v, h2, h3⟩

theorem isFinite_fields (d : SensorData_t) (hd : d.isFinite = true) :
    d.ph.isFinite = true ∧ d.turbidity.isFinite = true ∧ d.salinity.isFinite = true ∧
      d.ammonia.isFinite = true ∧ d.temperature.isFinite = true := by
  simp only [SensorData_t.isFinite, Bool.and_eq_true] at hd
  tauto

theorem scaleRaw_isFinite (r : Nat) (hr : r ≤ 4095) : (scaleRaw r).isFinite = true := by
  obtain ⟨m, e, h, -⟩ := scaleRaw_value r (by omega)
  rw [h]
  rfl

theorem payloadText_no_nul (d : SensorData_t) : ∀ c ∈ payloadText d, c ≠ Char.ofNat 0 := by
  intro c hc
  simp only [payloadText, List.mem_append] at hc
  have hkey : ∀ k : List Char, (∀ x ∈ k, x ≠ Char.ofNat 0) → c ∈ k → c ≠ Char.ofNat 0 :=
    fun k hk hck => hk c hck
  rcases hc with ((((((((h | h) | h) | h) | h) | h) | h) | h) | h) | h
  · exact hkey "PH=".toList (by decide) h
  · exact fmtFixed_no_nul 2 (by decide) _ c h
  · exact hkey ",TUR=".toList (by decide) h
  · exact fmtFixed_no_nul 2 (by decide) _ c h
  · exact hkey ",SAL=".toList (by decide) h
  · exact fmtFixed_no_nul 2 (by decide) _ c h
  · exact hkey ",NH3=".toList (by decide) h
  · exact fmtFixed_no_nul 2 (by decide) _ c h
  · exact hkey ",T=".toList (by decide) h
  · exact fmtFixed_no_nul 1 (by decide) _ c h

theorem payloadText_length (d : SensorData_t) :
    (payloadText d).length = 21 + (fmtFixed 2 d.ph).length + (fmtFixed 2 d.turbidity).length +
      (fmtFixed 2 d.salinity).length + (fmtFixed 2 d.ammonia).length +
      (fmtFixed 1 d.temperature).length := by
  simp only [payloadText, List.length_append]
  have h1 : "PH=".toList.length = 3 := by decide
  have h2 : ",TUR=".toList.length = 5 := by decide
  have h3 : ",SAL=".toList.length = 5 := by decide
  have h4 : ",NH3=".toList.length = 5 := by decide
  have h5 : ",T=".toList.length = 3 := by decide
  rw [h1, h2, h3, h4, h5]
  omega

theorem payload_buffer (d : SensorData_t) (hlen : (payloadText d).length ≤ 127) :
    (Sensors_FormatPayload d).1.length = (Sensors_FormatPayload d).2.toNat + 1 ∧
    0 ≤ (Sensors_FormatPayload d).2 ∧
    (Sensors_FormatPayload d).2 ≤ 128 ∧
    (Sensors_FormatPayload d).1.length ≤ 128 ∧
    (∀ c ∈ (Sensors_FormatPayload d).1.take (Sensors_FormatPayload d).2.toNat,
      c ≠ Char.ofNat 0) ∧
    (Sensors_FormatPayload d).1.drop (Sensors_FormatPayload d).2.toNat = [Char.ofNat 0] := by
  have htake := payload_text_of_buffer d
  simp only [Sensors_FormatPayload, List.length_append, List.length_singleton,
    Int.toNat_ofNat, List.drop_left] at htake ⊢
  refine ⟨trivial, by omega, by omega, by omega, ?_, trivial⟩
  rw [htake]
  exact payloadText_no_nul d

/-- C1: for every Reading whose five fields are finite, `Sensors_FormatPayload`
stores the text `PH=<ph>,TUR=<turbidity>,SAL=<salinity>,NH3=<ammonia>,T=<temperature>`
followed by the terminating null, and returns the length of that text; the four
analog fields are decimal numerals with exactly two decimals and the temperature
one with exactly one, each reading back within half a unit of its last decimal
of the field it renders. Every Reading that `Sensors_ReadAll` builds from 12-bit
raw codes is such a Reading, and the all-zero Reading gives
`PH=0.00,TUR=0.00,SAL=0.00,NH3=0.00,T=0.0`. -/
theorem Sensors_FormatPayload_format (d : SensorData_t) (hd : d.isFinite = true)
    (adc : Nat → Nat) (bd : Board) (hadc : ∀ i, i < 4 → adc (bd.conversions + i) ≤ 4095) :
    (∃ a b c e t : List Char,
      RendersAs 2 d.ph a ∧ RendersAs 2 d.turbidity b ∧ RendersAs 2 d.salinity c ∧
      RendersAs 2 d.ammonia e ∧ RendersAs 1 d.temperature t ∧
      (Sensors_FormatPayload d).1 =
        "PH=".toList ++ a ++ ",TUR=".toList ++ b ++ ",SAL=".toList ++ c ++
          ",NH3=".toList ++ e ++ ",T=".toList ++ t ++ [Char.ofNat 0] ∧
      (Sensors_FormatPayload d).2 =
        (("PH=".toList ++ a ++ ",TUR=".toList ++ b ++ ",SAL=".toList ++ c ++
          ",NH3=".toList ++ e ++ ",T=".toList ++ t).length : Int)) ∧
    (Sensors_ReadAll adc bd).1.isFinite = true ∧
    (Sensors_FormatPayload zeroReading).1 =
      "PH=0.00,TUR=0.00,SAL=0.00,NH3=0.00,T=0.0".toList ++ [Char.ofNat 0] := by
  obtain ⟨h1, h2, h3, h4, h5⟩ := isFinite_fields d hd
  refine ⟨⟨fmtFixed 2 d.ph, fmtFixed 2 d.turbidity, fmtFixed 2 d.salinity,
    fmtFixed 2 d.ammonia, fmtFixed 1 d.temperature,
    renders_of_finite 2 (by decide) _ h1, renders_of_finite 2 (by decide) _ h2,
    renders_of_finite 2 (by decide) _ h3, renders_of_finite 2 (by decide) _ h4,
    renders_of_finite 1 (by decide) _ h5, rfl, rfl⟩, ?_, by decide⟩
  rw [Sensors_ReadAll_fst]
  have hmod : ∀ i, i < 4 → adc (bd.conversions + i) % 2 ^ 32 ≤ 4095 := fun i hi =>
    le_trans (Nat.mod_le _ _) (hadc i hi)
  have e0 := scaleRaw_isFinite _ (hmod 0 (by decide))
  have e1 := scaleRaw_isFinite _ (hmod 1 (by decide))
  have e2 := scaleRaw_isFinite _ (hmod 2 (by decide))
  have e3 := scaleRaw_isFinite _ (hmod 3 (by decide))
  have e4 : (Float32.ofDecimal 25 1).isFinite = true := by decide
  simp only [Nat.add_zero] at e0
  simp only [SensorData_t.isFinite, e0, e1, e2, e3, e4, Bool.and_self]

/-- C1, at the all-zero Reading and a converter that always returns 0. -/
theorem Sensors_FormatPayload_format_witness :
    (Sensors_ReadAll (fun _ => 0) { trace := [], conversions := 0 }).1.isFinite = true ∧
    (Sensors_FormatPayload zeroReading).1 =
      "PH=0.00,TUR=0.00,SAL=0.00,NH3=0.00,T=0.0".toList ++ [Char.ofNat 0] :=
  (Sensors_FormatPayload_format zeroReading (by decide) (fun _ => 0)
    { trace := [], conversions := 0 } (fun _ _ => Nat.zero_le 4095)).2

/-- C2: for a Reading whose four analog fields are scaled 12-bit raw codes and
whose temperature is any binary32 value, the integer `Sensors_FormatPayload`
returns is the number of characters stored in front of the terminating null,
none of those characters is a null, and text and terminator together take at
most 128 bytes. -/
theorem Sensors_FormatPayload_length (r1 r2 r3 r4 : Nat) (t : Float32)
    (h1 : r1 ≤ 4095) (h2 : r2 ≤ 4095) (h3 : r3 ≤ 4095) (h4 : r4 ≤ 4095)
    (ht : t.Representable) :
    (Sensors_FormatPayload
      { ph := scaleRaw r1, turbidity := scaleRaw r2, salinity := scaleRaw r3,
        ammonia := scaleRaw r4, temperature := t }).1.length =
      (Sensors_FormatPayload
        { ph := scaleRaw r1, turbidity := scaleRaw r2, salinity := scaleRaw r3,
          ammonia := scaleRaw r4, temperature := t }).2.toNat + 1 ∧
    0 ≤ (Sensors_FormatPayload
      { ph := scaleRaw r1, turbidity := scaleRaw r2, salinity := scaleRaw r3,
        ammonia := scaleRaw r4, temperature := t }).2 ∧
    (Sensors_FormatPayload
      { ph := scaleRaw r1, turbidity := scaleRaw r2, salinity := scaleRaw r3,
        ammonia := scaleRaw r4, temperature := t }).2 ≤ 128 ∧
    (Sensors_FormatPayload
      { ph := scaleRaw r1, turbidity := scaleRaw r2, salinity := scaleRaw r3,
        ammonia := scaleRaw r4, temperature := t }).1.length ≤ 128 ∧
    (∀ c ∈ (Sensors_FormatPayload
        { ph := scaleRaw r1, turbidity := scaleRaw r2, salinity := scaleRaw r3,
          ammonia := scaleRaw r4, temperature := t }).1.take
        (Sensors_FormatPayload
          { ph := scaleRaw r1, turbidity := scaleRaw r2, salinity := scaleRaw r3,
            ammonia := scaleRaw r4, temperature := t }).2.toNat,
      c ≠ Char.ofNat 0) ∧
    (Sensors_FormatPayload
      { ph := scaleRaw r1, turbidity := scaleRaw r2, salinity := scaleRaw r3,
        ammonia := scaleRaw r4, temperature := t }).1.drop
      (Sensors_FormatPayload
        { ph := scaleRaw r1, turbidity := scaleRaw r2, salinity := scaleRaw r3,
          ammonia := scaleRaw r4, temperature := t }).2.toNat = [Char.ofNat 0] := by
  obtain ⟨_, _, _, l1⟩ := scaleRaw_text r1 h1
  obtain ⟨_, _, _, l2⟩ := scaleRaw_text r2 h2
  obtain ⟨_, _, _, l3⟩ := scaleRaw_text r3 h3
  obtain ⟨_, _, _, l4⟩ := scaleRaw_text r4 h4
  have l5 := fmtFixed_one_length t ht
  apply payload_buffer
  rw [payloadText_length]
  simp only [l1, l2, l3, l4]
  omega

/-- C2, at the raw codes 0, 1365, 2730, 4095 and the temperature 25.0f. -/
theorem Sensors_FormatPayload_length_witness :
    (0 ≤ 4095 ∧ 1365 ≤ 4095 ∧ 2730 ≤ 4095 ∧ 4095 ≤ 4095 ∧
      (Float32.finite false 13107200 (-19)).Representable) ∧
    (Sensors_FormatPayload
      { ph := scaleRaw 0, turbidity := scaleRaw 1365, salinity := scaleRaw 2730,
        ammonia := scaleRaw 4095, temperature := Float32.finite false 13107200 (-19) }).1.length
      ≤ 128 :=
  ⟨⟨by decide, by decide, by decide, by decide, ⟨by decide, by decide, by decide⟩⟩,
    (Sensors_FormatPayload_length 0 1365 2730 4095 (Float32.finite false 13107200 (-19))
      (by decide) (by decide) (by decide) (by decide)
      ⟨by decide, by decide, by decide⟩).2.2.2.1⟩

/-- C3, as stated: the example Reading is not encoded to a payload of 43 bytes. -/
theorem scenario_length_not_43 :
    ¬ ((Sensors_FormatPayload scenarioReading).1.take
          (Sensors_FormatPayload scenarioReading).2.toNat =
        "PH=6.80,TUR=12.34,SAL=0.55,NH3=0.02,T=25.0".toList ∧
      (Sensors_FormatPayload scenarioReading).2 = 43) := by
  decide

/-- C3, amended: encoding the Reading 6.80, 12.34, 0.55, 0.02, 25.0 stores the
text `PH=6.80,TUR=12.34,SAL=0.55,NH3=0.02,T=25.0` and the terminating null, 43
bytes in all, and returns 42, the length of the text. -/
theorem scenario_payload :
    (Sensors_FormatPayload scenarioReading).1 =
      "PH=6.80,TUR=12.34,SAL=0.55,NH3=0.02,T=25.0".toList ++ [Char.ofNat 0] ∧
    (Sensors_FormatPayload scenarioReading).2 = 42 ∧
    (Sensors_FormatPayload scenarioReading).1.take 42 =
      "PH=6.80,TUR=12.34,SAL=0.55,NH3=0.02,T=25.0".toList ∧
    (Sensors_FormatPayload scenarioReading).1.length = 43 := by
  decide

/-- C4, as stated: for the raw code 1 the value `read_adc` returns is not `1 * 3.3 / 4096`. -/
theorem read_adc_not_exact :
    (read_adc (fun _ => 1) AdcChannel.ADC_CHANNEL_1 { trace := [], conversions := 0 }).1.toRat ≠
      1 * 3.3 / 4096 := by
  have h : (read_adc (fun _ => 1) AdcChannel.ADC_CHANNEL_1
      { trace := [], conversions := 0 }).1 = Float32.finite false 13841203 (-34) := by
    decide
  rw [h, toRat_finite_false]
  norm_num

/-- C4, amended: for every raw code `r` in [0, 4095], `read_adc` returns the
finite `float` obtained by evaluating `(r * 3.3f) / 4096.0f` in binary32; its
value differs from `r * 3.3 / 4096` by less than 0.00000025, and as a function
of `r` on that range it is strictly monotonic and injective. -/
theorem read_adc_scaling (adc adc' : Nat → Nat) (ch ch' : AdcChannel) (b b' : Board)
    (h : adc b.conversions ≤ 4095) (h' : adc' b'.conversions ≤ 4095) :
    (read_adc adc ch b).1 =
      Float32.div (Float32.mul (Float32.ofUInt32 (adc b.conversions)) (Float32.ofDecimal 33 10))
        (Float32.ofDecimal 4096 1) ∧
    (read_adc adc ch b).1.isFinite = true ∧
    |(read_adc adc ch b).1.toRat - (adc b.conversions : ℚ) * 3.3 / 4096| < 1 / 4000000 ∧
    (adc b.conversions < adc' b'.conversions →
      (read_adc adc ch b).1.toRat < (read_adc adc' ch' b').1.toRat) ∧
    ((read_adc adc ch b).1.toRat = (read_adc adc' ch' b').1.toRat →
      adc b.conversions = adc' b'.conversions) := by
  have hm : adc b.conversions % 2 ^ 32 = adc b.conversions := Nat.mod_eq_of_lt (by omega)
  have hm' : adc' b'.conversions % 2 ^ 32 = adc' b'.conversions := Nat.mod_eq_of_lt (by omega)
  rw [read_adc_fst, read_adc_fst, hm, hm']
  refine ⟨rfl, scaleRaw_isFinite _ h, scaleRaw_error _ h,
    fun hlt => scaleRaw_strictMono _ _ hlt h', fun heq => ?_⟩
  rcases Nat.lt_trichotomy (adc b.conversions) (adc' b'.conversions) with hlt | heq' | hgt
  · exact absurd heq (ne_of_lt (scaleRaw_strictMono _ _ hlt h'))
  · exact heq'
  · exact absurd heq.symm (ne_of_lt (scaleRaw_strictMono _ _ hgt h))

/-- C4, amended, at the raw codes 1 and 2. -/
theorem read_adc_scaling_witness :
    (1 ≤ 4095 ∧ 2 ≤ 4095) ∧
    (read_adc (fun _ => 1) AdcChannel.ADC_CHANNEL_1 { trace := [], conversions := 0 }).1.toRat <
      (read_adc (fun _ => 2) AdcChannel.ADC_CHANNEL_1 { trace := [], conversions := 0 }).1.toRat :=
  ⟨⟨by decide, by decide⟩,
    (read_adc_scaling (fun _ => 1) (fun _ => 2) AdcChannel.ADC_CHANNEL_1 AdcChannel.ADC_CHANNEL_1
      { trace := [], conversions := 0 } { trace := [], conversions := 0 }
      (by decide) (by decide)).2.2.2.1 (by decide)⟩

/-- C5: for every Reading whose five fields are finite, parsing the text that
`Sensors_FormatPayload` produced with the inverse of the wire format succeeds;
the values read for pH, turbidity, salinity and ammonia are within 0.005 of the
fields, the one read for temperature within 0.05; and a field that is a whole
number of hundredths (tenths for temperature) is read back exactly. -/
theorem payload_roundtrip (d : SensorData_t) (hd : d.isFinite = true) :
    ∃ v1 v2 v3 v4 v5 : ℚ,
      parsePayload ((Sensors_FormatPayload d).1.take (Sensors_FormatPayload d).2.toNat) =
        some (v1, v2, v3, v4, v5) ∧
      |v1 - d.ph.toRat| ≤ 1 / 200 ∧ |v2 - d.turbidity.toRat| ≤ 1 / 200 ∧
      |v3 - d.salinity.toRat| ≤ 1 / 200 ∧ |v4 - d.ammonia.toRat| ≤ 1 / 200 ∧
      |v5 - d.temperature.toRat| ≤ 1 / 20 ∧
      ((∃ K : ℤ, d.ph.toRat * 100 = K) → v1 = d.ph.toRat) ∧
      ((∃ K : ℤ, d.turbidity.toRat * 100 = K) → v2 = d.turbidity.toRat) ∧
      ((∃ K : ℤ, d.salinity.toRat * 100 = K) → v3 = d.salinity.toRat) ∧
      ((∃ K : ℤ, d.ammonia.toRat * 100 = K) → v4 = d.ammonia.toRat) ∧
      ((∃ K : ℤ, d.temperature.toRat * 10 = K) → v5 = d.temperature.toRat) := by
  obtain ⟨h1, h2, h3, h4, h5⟩ := isFinite_fields d hd
  obtain ⟨-, c1, v1, p1, b1, x1⟩ := field_text 2 (by decide) d.ph h1
  obtain ⟨-, c2, v2, p2, b2, x2⟩ := field_text 2 (by decide) d.turbidity h2
  obtain ⟨-, c3, v3, p3, b3, x3⟩ := field_text 2 (by decide) d.salinity h3
  obtain ⟨-, c4, v4, p4, b4, x4⟩ := field_text 2 (by decide) d.ammonia h4
  obtain ⟨-, c5, v5, p5, b5, x5⟩ := field_text 1 (by decide) d.temperature h5
  have e200 : 1 / (2 * (10 : ℚ) ^ 2) = 1 / 200 := by norm_num
  have e20 : 1 / (2 * (10 : ℚ) ^ 1) = 1 / 20 := by norm_num
  have e100 : (10 : ℚ) ^ 2 = 100 := by norm_num
  have e10 : (10 : ℚ) ^ 1 = 10 := by norm_num
  rw [e200] at b1 b2 b3 b4
  rw [e20] at b5
  rw [e100] at x1 x2 x3 x4
  rw [e10] at x5
  refine ⟨v1, v2, v3, v4, v5, ?_, b1, b2, b3, b4, b5, x1, x2, x3, x4, x5⟩
  rw [payload_text_of_buffer]
  exact parsePayload_fields _ _ _ _ _ v1 v2 v3 v4 v5 c1 c2 c3 c4 c5 p1 p2 p3 p4 p5

/-- C5, at the Reading 6.80, 12.34, 0.55, 0.02, 25.0. -/
theorem payload_roundtrip_witness :
    scenarioReading.isFinite = true ∧
    ∃ v1 v2 v3 v4 v5 : ℚ,
      parsePayload ((Sensors_FormatPayload scenarioReading).1.take
        (Sensors_FormatPayload scenarioReading).2.toNat) = some (v1, v2, v3, v4, v5) ∧
      |v1 - scenarioReading.ph.toRat| ≤ 1 / 200 ∧
      |v2 - scenarioReading.turbidity.toRat| ≤ 1 / 200 ∧
      |v3 - scenarioReading.salinity.toRat| ≤ 1 / 200 ∧
      |v4 - scenarioReading.ammonia.toRat| ≤ 1 / 200 ∧
      |v5 - scenarioReading.temperature.toRat| ≤ 1 / 20 ∧
      ((∃ K : ℤ, scenarioReading.ph.toRat * 100 = K) → v1 = scenarioReading.ph.toRat) ∧
      ((∃ K : ℤ, scenarioReading.turbidity.toRat * 100 = K) →
        v2 = scenarioReading.turbidity.toRat) ∧
      ((∃ K : ℤ, scenarioReading.salinity.toRat * 100 = K) →
        v3 = scenarioReading.salinity.toRat) ∧
      ((∃ K : ℤ, scenarioReading.ammonia.toRat * 100 = K) →
        v4 = scenarioReading.ammonia.toRat) ∧
      ((∃ K : ℤ, scenarioReading.temperature.toRat * 10 = K) →
        v5 = scenarioReading.temperature.toRat) :=
  ⟨by decide, payload_roundtrip scenarioReading (by decide)⟩

/-- C10: for four 12-bit raw codes, the payload encoded from the Reading that
`Sensors_ReadAll` builds is exactly 41 characters long: each analog field is one
integer digit, the point and two decimals, for a number of hundredths from 0 to
330, and the temperature is `25.0`; the encoder returns 41, its conversion to
`uint8_t` is 41 as well, and this is the length `main` hands to `LORA_Send`. -/
theorem sensor_payload_length (adc : Nat → Nat) (s : MainState)
    (h : ∀ i, i < 4 → adc (s.board.conversions + i) ≤ 4095) :
    (payloadText (Sensors_ReadAll adc s.board).1).length = 41 ∧
    (Sensors_FormatPayload (Sensors_ReadAll adc s.board).1).2 = 41 ∧
    toUInt8 (Sensors_FormatPayload (Sensors_ReadAll adc s.board).1).2 = 41 ∧
    (toUInt8 (Sensors_FormatPayload (Sensors_ReadAll adc s.board).1).2 : Int) =
      (Sensors_FormatPayload (Sensors_ReadAll adc s.board).1).2 ∧
    (∃ u1 u2 u3 u4 : Nat, u1 ≤ 330 ∧ u2 ≤ 330 ∧ u3 ≤ 330 ∧ u4 ≤ 330 ∧
      fmtFixed 2 (Sensors_ReadAll adc s.board).1.ph =
        Nat.digitChar (u1 / 100) :: '.' :: padDigits 2 (u1 % 100) ∧
      fmtFixed 2 (Sensors_ReadAll adc s.board).1.turbidity =
        Nat.digitChar (u2 / 100) :: '.' :: padDigits 2 (u2 % 100) ∧
      fmtFixed 2 (Sensors_ReadAll adc s.board).1.salinity =
        Nat.digitChar (u3 / 100) :: '.' :: padDigits 2 (u3 % 100) ∧
      fmtFixed 2 (Sensors_ReadAll adc s.board).1.ammonia =
        Nat.digitChar (u4 / 100) :: '.' :: padDigits 2 (u4 % 100)) ∧
    fmtFixed 1 (Sensors_ReadAll adc s.board).1.temperature = "25.0".toList ∧
    MainEvent.LORA_Send (Sensors_FormatPayload (Sensors_ReadAll adc s.board).1).1 41 ∈
      (mainCycle adc s).events := by
  have hmod : ∀ i, i < 4 → adc (s.board.conversions + i) % 2 ^ 32 ≤ 4095 := fun i hi =>
    le_trans (Nat.mod_le _ _) (h i hi)
  obtain ⟨u1, hu1, t1, l1⟩ := scaleRaw_text _ (hmod 0 (by decide))
  obtain ⟨u2, hu2, t2, l2⟩ := scaleRaw_text _ (hmod 1 (by decide))
  obtain ⟨u3, hu3, t3, l3⟩ := scaleRaw_text _ (hmod 2 (by decide))
  obtain ⟨u4, hu4, t4, l4⟩ := scaleRaw_text _ (hmod 3 (by decide))
  simp only [Nat.add_zero] at t1 l1
  have l5 : (fmtFixed 1 (Float32.ofDecimal 25 1)).length = 4 := by
    rw [temperature_text]; rfl
  have hlen : (payloadText (Sensors_ReadAll adc s.board).1).length = 41 := by
    rw [payloadText_length, Sensors_ReadAll_fst]
    simp only [l1, l2, l3, l4, l5]
  have hret : (Sensors_FormatPayload (Sensors_ReadAll adc s.board).1).2 = 41 := by
    simp only [Sensors_FormatPayload, hlen]
    rfl
  have hu8 : toUInt8 (Sensors_FormatPayload (Sensors_ReadAll adc s.board).1).2 = 41 := by
    rw [hret]; rfl
  refine ⟨hlen, hret, hu8, by rw [hu8, hret]; rfl,
    ⟨u1, u2, u3, u4, hu1, hu2, hu3, hu4, ?_, ?_, ?_, ?_⟩, ?_, ?_⟩
  · rw [Sensors_ReadAll_fst]; exact t1
  · rw [Sensors_ReadAll_fst]; exact t2
  · rw [Sensors_ReadAll_fst]; exact t3
  · rw [Sensors_ReadAll_fst]; exact t4
  · rw [Sensors_ReadAll_fst]; exact temperature_text
  · rw [mainCycle_events, hu8]
    simp

/-- C10, at the start of the first pass with a converter that always returns 4095. -/
theorem sensor_payload_length_witness :
    (4095 ≤ 4095) ∧
    (Sensors_FormatPayload (Sensors_ReadAll (fun _ => 4095) mainInit.board).1).2 = 41 :=
  ⟨by decide, (sensor_payload_length (fun _ => 4095) mainInit (fun _ _ => Nat.le_refl 4095)).2.1⟩

end AquaNova
